import Mathlib

/-!
Verification of the UE5-rs spatial-math core against its specification.

The Rust source operates on IEEE floating-point numbers.  We use two shallow
embeddings of the scalar type:

* `XQ` — an exact model of the non-NaN `f64` values: the rationals extended
  with `+∞` and `-∞` (every finite float is a rational; rounding is idealised
  away).  Used for the bounding-box subsystem, which is pure order/min/max
  arithmetic, and for angle normalisation.
* `ℝ`, and `EF` (ℝ extended with `±∞` and `NaN`) — used for the parts that
  involve square roots, trigonometry, or the NaN-propagation policy of
  `get_safe_normal`.

Operations of the external `glam` library (vector/quaternion/matrix algebra)
are embedded by their documented semantics, following the published glam
implementations.
-/

/-- Extended rationals: the non-NaN `f64` values, idealised exactly. -/
inductive XQ where
  | ninf : XQ
  | fin (q : ℚ) : XQ
  | pinf : XQ
  deriving DecidableEq

/-- The `<=` comparison of `f64`, restricted to non-NaN values. -/
def XQ.ble : XQ → XQ → Bool
  | .ninf, _ => true
  | .fin _, .ninf => false
  | .fin a, .fin b => decide (a ≤ b)
  | .fin _, .pinf => true
  | .pinf, .ninf => false
  | .pinf, .fin _ => false
  | .pinf, .pinf => true

instance : LinearOrder XQ where
  le a b := XQ.ble a b = true
  le_refl a := by cases a <;> simp [XQ.ble]
  le_trans a b c h1 h2 := by
    cases a <;> cases b <;> cases c <;> simp_all [XQ.ble]
    exact h1.trans h2
  le_antisymm a b h1 h2 := by
    cases a <;> cases b <;> simp_all [XQ.ble]
    exact le_antisymm h1 h2
  le_total a b := by
    cases a <;> cases b <;> simp [XQ.ble]
    exact le_total _ _
  decidableLE a b := inferInstanceAs (Decidable (XQ.ble a b = true))

theorem XQ.le_def (a b : XQ) : (a ≤ b) = (XQ.ble a b = true) := rfl

/-- A 3-component vector of non-NaN `f64` values (the `glam::DVec3` of the
bounding-box subsystem). -/
@[ext]
structure XV3 where
  x : XQ
  y : XQ
  z : XQ
  deriving DecidableEq

/-- Componentwise minimum (`glam::DVec3::min`). -/
def XV3.vmin (a b : XV3) : XV3 := ⟨min a.x b.x, min a.y b.y, min a.z b.z⟩

/-- Componentwise maximum (`glam::DVec3::max`). -/
def XV3.vmax (a b : XV3) : XV3 := ⟨max a.x b.x, max a.y b.y, max a.z b.z⟩

/-- Axis-aligned bounding box, `src/types/bounds/bounding_box.rs`. -/
@[ext]
structure BoundingBox where
  min : XV3
  max : XV3
  deriving DecidableEq

/-- The `EMPTY` sentinel: inverted infinite bounds. -/
def BoundingBox.EMPTY : BoundingBox :=
  ⟨⟨XQ.pinf, XQ.pinf, XQ.pinf⟩, ⟨XQ.ninf, XQ.ninf, XQ.ninf⟩⟩

/-- The `BoundingBox::from_point`. -/
def BoundingBox.from_point (point : XV3) : BoundingBox := ⟨point, point⟩

/-- The `BoundingBox::is_valid`: min ≤ max on every axis. -/
def BoundingBox.is_valid (b : BoundingBox) : Bool :=
  XQ.ble b.min.x b.max.x && XQ.ble b.min.y b.max.y && XQ.ble b.min.z b.max.z

/-- The `BoundingBox::is_empty`: min ≥ max on some axis. -/
def BoundingBox.is_empty (b : BoundingBox) : Bool :=
  XQ.ble b.max.x b.min.x || XQ.ble b.max.y b.min.y || XQ.ble b.max.z b.min.z

/-- The `BoundingBox::contains_point`. -/
def BoundingBox.contains_point (b : BoundingBox) (point : XV3) : Bool :=
  XQ.ble b.min.x point.x && XQ.ble point.x b.max.x &&
  XQ.ble b.min.y point.y && XQ.ble point.y b.max.y &&
  XQ.ble b.min.z point.z && XQ.ble point.z b.max.z

/-- The `BoundingBox::contains_box`. -/
def BoundingBox.contains_box (b other : BoundingBox) : Bool :=
  b.contains_point other.min && b.contains_point other.max

/-- The `BoundingBox::intersects`: boundary-inclusive separating-axis test. -/
def BoundingBox.intersects (b other : BoundingBox) : Bool :=
  XQ.ble b.min.x other.max.x && XQ.ble other.min.x b.max.x &&
  XQ.ble b.min.y other.max.y && XQ.ble other.min.y b.max.y &&
  XQ.ble b.min.z other.max.z && XQ.ble other.min.z b.max.z

/-- The `BoundingBox::expand_to_include`. -/
def BoundingBox.expand_to_include (b : BoundingBox) (point : XV3) : BoundingBox :=
  ⟨b.min.vmin point, b.max.vmax point⟩

/-- The `BoundingBox::expand_to_include_box`. -/
def BoundingBox.expand_to_include_box (b other : BoundingBox) : BoundingBox :=
  if other.is_empty then b
  else if b.is_empty then other
  else ⟨b.min.vmin other.min, b.max.vmax other.max⟩

/-- The `BoundingBox::intersection`. -/
def BoundingBox.intersection (b other : BoundingBox) : BoundingBox :=
  if ¬ b.intersects other then BoundingBox.EMPTY
  else ⟨b.min.vmax other.min, b.max.vmin other.max⟩

/-- The `BoundingBox::from_points`: `EMPTY` for no points, otherwise a left fold of
`expand_to_include` starting from the first point. -/
def BoundingBox.from_points : List XV3 → BoundingBox
  | [] => BoundingBox.EMPTY
  | p :: rest => rest.foldl BoundingBox.expand_to_include (BoundingBox.from_point p)

theorem XQ.ble_iff (a b : XQ) : XQ.ble a b = true ↔ a ≤ b := Iff.rfl

theorem XQ.le_pinf (a : XQ) : a ≤ XQ.pinf := by cases a <;> exact rfl

theorem XQ.ninf_le (a : XQ) : XQ.ninf ≤ a := by cases a <;> exact rfl

theorem BoundingBox.contains_point_iff (b : BoundingBox) (p : XV3) :
    b.contains_point p = true ↔
      (b.min.x ≤ p.x ∧ p.x ≤ b.max.x) ∧ (b.min.y ≤ p.y ∧ p.y ≤ b.max.y) ∧
      (b.min.z ≤ p.z ∧ p.z ≤ b.max.z) := by
  simp only [BoundingBox.contains_point, Bool.and_eq_true, XQ.ble_iff]
  tauto

theorem BoundingBox.expand_preserves (b : BoundingBox) (q p : XV3)
    (h : b.contains_point p = true) :
    (b.expand_to_include q).contains_point p = true := by
  rw [BoundingBox.contains_point_iff] at h ⊢
  simp only [BoundingBox.expand_to_include, XV3.vmin, XV3.vmax]
  refine ⟨⟨?_, ?_⟩, ⟨?_, ?_⟩, ?_, ?_⟩
  · exact le_trans (min_le_left _ _) h.1.1
  · exact le_trans h.1.2 (le_max_left _ _)
  · exact le_trans (min_le_left _ _) h.2.1.1
  · exact le_trans h.2.1.2 (le_max_left _ _)
  · exact le_trans (min_le_left _ _) h.2.2.1
  · exact le_trans h.2.2.2 (le_max_left _ _)

theorem BoundingBox.expand_contains (b : BoundingBox) (q : XV3) :
    (b.expand_to_include q).contains_point q = true := by
  rw [BoundingBox.contains_point_iff]
  simp only [BoundingBox.expand_to_include, XV3.vmin, XV3.vmax]
  exact ⟨⟨min_le_right _ _, le_max_right _ _⟩, ⟨min_le_right _ _, le_max_right _ _⟩,
    min_le_right _ _, le_max_right _ _⟩

theorem BoundingBox.foldl_expand_preserves (l : List XV3) (acc : BoundingBox) (p : XV3)
    (h : acc.contains_point p = true) :
    (l.foldl BoundingBox.expand_to_include acc).contains_point p = true := by
  induction l generalizing acc with
  | nil => exact h
  | cons q rest ih => exact ih _ (BoundingBox.expand_preserves _ _ _ h)

theorem BoundingBox.foldl_expand_contains (l : List XV3) (acc : BoundingBox) :
    ∀ p ∈ l, (l.foldl BoundingBox.expand_to_include acc).contains_point p = true := by
  induction l generalizing acc with
  | nil => intro p hp; cases hp
  | cons q rest ih =>
    intro p hp
    rw [List.foldl_cons]
    rcases List.mem_cons.mp hp with h | h
    · subst h
      exact BoundingBox.foldl_expand_preserves _ _ _ (BoundingBox.expand_contains _ _)
    · exact ih _ p h

theorem BoundingBox.contains_box_iff (b other : BoundingBox) :
    b.contains_box other = true ↔
      b.contains_point other.min = true ∧ b.contains_point other.max = true := by
  simp [BoundingBox.contains_box]

theorem BoundingBox.contains_box_expand (b acc : BoundingBox) (q : XV3)
    (hacc : b.contains_box acc = true) (hq : b.contains_point q = true) :
    b.contains_box (acc.expand_to_include q) = true := by
  rw [BoundingBox.contains_box_iff] at hacc ⊢
  rw [BoundingBox.contains_point_iff] at hq
  obtain ⟨h1, h2⟩ := hacc
  rw [BoundingBox.contains_point_iff] at h1 h2
  refine ⟨?_, ?_⟩ <;> rw [BoundingBox.contains_point_iff]
  · simp only [BoundingBox.expand_to_include, XV3.vmin]
    refine ⟨⟨le_min h1.1.1 hq.1.1, ?_⟩, ⟨le_min h1.2.1.1 hq.2.1.1, ?_⟩,
      le_min h1.2.2.1 hq.2.2.1, ?_⟩
    · exact le_trans (min_le_left _ _) h1.1.2
    · exact le_trans (min_le_left _ _) h1.2.1.2
    · exact le_trans (min_le_left _ _) h1.2.2.2
  · simp only [BoundingBox.expand_to_include, XV3.vmax]
    refine ⟨⟨?_, max_le h2.1.2 hq.1.2⟩, ⟨?_, max_le h2.2.1.2 hq.2.1.2⟩,
      ?_, max_le h2.2.2.2 hq.2.2.2⟩
    · exact le_trans h2.1.1 (le_max_left _ _)
    · exact le_trans h2.2.1.1 (le_max_left _ _)
    · exact le_trans h2.2.2.1 (le_max_left _ _)

theorem BoundingBox.contains_box_foldl (l : List XV3) (b acc : BoundingBox)
    (hacc : b.contains_box acc = true) (hall : ∀ p ∈ l, b.contains_point p = true) :
    b.contains_box (l.foldl BoundingBox.expand_to_include acc) = true := by
  induction l generalizing acc with
  | nil => exact hacc
  | cons q rest ih =>
    exact ih _ (BoundingBox.contains_box_expand _ _ _ hacc (hall q (List.mem_cons_self _ _)))
      (fun p hp => hall p (List.mem_cons_of_mem _ hp))

theorem XQ.max_rcomm (a b c : XQ) : max (max a b) c = max (max a c) b := by
  rw [max_assoc, max_comm b c, ← max_assoc]

theorem BoundingBox.expand_right_comm (acc : BoundingBox) (p q : XV3) :
    (acc.expand_to_include p).expand_to_include q =
    (acc.expand_to_include q).expand_to_include p := by
  simp only [BoundingBox.expand_to_include, XV3.vmin, XV3.vmax]
  ext <;> simp only [] <;>
    first
      | exact min_right_comm _ _ _
      | exact XQ.max_rcomm _ _ _

theorem BoundingBox.from_points_eq_foldl (pts : List XV3) :
    BoundingBox.from_points pts = pts.foldl BoundingBox.expand_to_include BoundingBox.EMPTY := by
  cases pts with
  | nil => rfl
  | cons p rest =>
    have h : BoundingBox.EMPTY.expand_to_include p = BoundingBox.from_point p := by
      simp only [BoundingBox.expand_to_include, BoundingBox.EMPTY, BoundingBox.from_point,
        XV3.vmin, XV3.vmax]
      ext <;> simp only [] <;>
        first
          | exact min_eq_right (XQ.le_pinf _)
          | exact max_eq_right (XQ.ninf_le _)
    simp only [BoundingBox.from_points, List.foldl_cons, h]

/-- C5: `from_points` yields `EMPTY` on the empty list; otherwise it contains
every input point, is the tightest axis-aligned box containing them (any box
containing every point contains the result), and is order-independent. -/
theorem from_points_spec (pts : List XV3) :
    (pts = [] → BoundingBox.from_points pts = BoundingBox.EMPTY) ∧
    (∀ p ∈ pts, (BoundingBox.from_points pts).contains_point p = true) ∧
    (∀ b : BoundingBox, (∀ p ∈ pts, b.contains_point p = true) → pts ≠ [] →
      b.contains_box (BoundingBox.from_points pts) = true) ∧
    (∀ pts' : List XV3, pts.Perm pts' →
      BoundingBox.from_points pts = BoundingBox.from_points pts') := by
  refine ⟨?_, ?_, ?_, ?_⟩
  · intro h; subst h; rfl
  · intro p hp
    cases pts with
    | nil => cases hp
    | cons q rest =>
      rcases List.mem_cons.mp hp with h | h
      · subst h
        refine BoundingBox.foldl_expand_preserves _ _ _ ?_
        rw [BoundingBox.contains_point_iff]
        exact ⟨⟨le_refl _, le_refl _⟩, ⟨le_refl _, le_refl _⟩, le_refl _, le_refl _⟩
      · exact BoundingBox.foldl_expand_contains _ _ p h
  · intro b hall hne
    cases pts with
    | nil => exact absurd rfl hne
    | cons q rest =>
      refine BoundingBox.contains_box_foldl _ _ _ ?_
        (fun p hp => hall p (List.mem_cons_of_mem _ hp))
      rw [BoundingBox.contains_box_iff, BoundingBox.from_point]
      exact ⟨hall q (List.mem_cons_self _ _), hall q (List.mem_cons_self _ _)⟩
  · intro pts' hperm
    rw [BoundingBox.from_points_eq_foldl, BoundingBox.from_points_eq_foldl]
    exact hperm.foldl_eq'
      (fun x _ y _ z => BoundingBox.expand_right_comm z x y) _

/-- C5 witness instance at a concrete point list. -/
theorem from_points_spec_witness :
    ((BoundingBox.from_points [⟨XQ.fin 1, XQ.fin 2, XQ.fin 3⟩, ⟨XQ.fin 0, XQ.fin 5, XQ.fin 1⟩]).contains_point
        ⟨XQ.fin 0, XQ.fin 5, XQ.fin 1⟩ = true) ∧
    BoundingBox.from_points ([] : List XV3) = BoundingBox.EMPTY := by
  refine ⟨(from_points_spec _).2.1 _ ?_, (from_points_spec _).1 rfl⟩
  exact List.mem_cons_of_mem _ (List.mem_cons_self _ _)

/-- C6: for valid boxes, the boundary-inclusive separating-axis test holds
exactly when the boxes share a point, and `intersection` is `EMPTY` when they
do not intersect and the max-of-mins/min-of-maxes box when they do. -/
theorem BoundingBox.intersects_iff (a b : BoundingBox) :
    a.intersects b = true ↔
      (a.min.x ≤ b.max.x ∧ b.min.x ≤ a.max.x) ∧ (a.min.y ≤ b.max.y ∧ b.min.y ≤ a.max.y) ∧
      (a.min.z ≤ b.max.z ∧ b.min.z ≤ a.max.z) := by
  simp only [BoundingBox.intersects, Bool.and_eq_true, XQ.ble_iff]
  tauto

theorem BoundingBox.is_valid_iff (b : BoundingBox) :
    b.is_valid = true ↔ b.min.x ≤ b.max.x ∧ b.min.y ≤ b.max.y ∧ b.min.z ≤ b.max.z := by
  simp only [BoundingBox.is_valid, Bool.and_eq_true, XQ.ble_iff]
  tauto

theorem intersects_intersection_spec (a b : BoundingBox)
    (ha : a.is_valid = true) (hb : b.is_valid = true) :
    (a.intersects b = true ↔
      ∃ p, a.contains_point p = true ∧ b.contains_point p = true) ∧
    a.intersection b =
      (if a.intersects b = true then ⟨a.min.vmax b.min, a.max.vmin b.max⟩
       else BoundingBox.EMPTY) := by
  rw [BoundingBox.is_valid_iff] at ha hb
  obtain ⟨hax, hay, haz⟩ := ha
  obtain ⟨hbx, hby, hbz⟩ := hb
  constructor
  · constructor
    · intro hint
      rw [BoundingBox.intersects_iff] at hint
      obtain ⟨⟨h1x, h2x⟩, ⟨h1y, h2y⟩, h1z, h2z⟩ := hint
      refine ⟨a.min.vmax b.min, ?_, ?_⟩ <;> rw [BoundingBox.contains_point_iff] <;>
        simp only [XV3.vmax]
      · exact ⟨⟨le_max_left _ _, max_le hax h2x⟩, ⟨le_max_left _ _, max_le hay h2y⟩,
          le_max_left _ _, max_le haz h2z⟩
      · exact ⟨⟨le_max_right _ _, max_le h1x hbx⟩, ⟨le_max_right _ _, max_le h1y hby⟩,
          le_max_right _ _, max_le h1z hbz⟩
    · rintro ⟨p, hp1, hp2⟩
      rw [BoundingBox.contains_point_iff] at hp1 hp2
      obtain ⟨⟨pa1, pa2⟩, ⟨pa3, pa4⟩, pa5, pa6⟩ := hp1
      obtain ⟨⟨pb1, pb2⟩, ⟨pb3, pb4⟩, pb5, pb6⟩ := hp2
      rw [BoundingBox.intersects_iff]
      exact ⟨⟨pa1.trans pb2, pb1.trans pa2⟩, ⟨pa3.trans pb4, pb3.trans pa4⟩,
        pa5.trans pb6, pb5.trans pa6⟩
  · by_cases h : a.intersects b = true
    · rw [if_pos h]
      simp only [BoundingBox.intersection]
      rw [if_neg (by simp [h])]
    · rw [if_neg h]
      simp only [BoundingBox.intersection]
      rw [if_pos (by simp [h])]

/-- C6 witness instance: the unit boxes touching at a corner. -/
theorem intersects_intersection_spec_witness :
    BoundingBox.is_valid ⟨⟨XQ.fin 0, XQ.fin 0, XQ.fin 0⟩, ⟨XQ.fin 1, XQ.fin 1, XQ.fin 1⟩⟩ = true ∧
    BoundingBox.is_valid ⟨⟨XQ.fin 1, XQ.fin 1, XQ.fin 1⟩, ⟨XQ.fin 2, XQ.fin 2, XQ.fin 2⟩⟩ = true ∧
    (BoundingBox.intersects ⟨⟨XQ.fin 0, XQ.fin 0, XQ.fin 0⟩, ⟨XQ.fin 1, XQ.fin 1, XQ.fin 1⟩⟩
        ⟨⟨XQ.fin 1, XQ.fin 1, XQ.fin 1⟩, ⟨XQ.fin 2, XQ.fin 2, XQ.fin 2⟩⟩ = true ↔
      ∃ p, BoundingBox.contains_point ⟨⟨XQ.fin 0, XQ.fin 0, XQ.fin 0⟩, ⟨XQ.fin 1, XQ.fin 1, XQ.fin 1⟩⟩ p = true ∧
        BoundingBox.contains_point ⟨⟨XQ.fin 1, XQ.fin 1, XQ.fin 1⟩, ⟨XQ.fin 2, XQ.fin 2, XQ.fin 2⟩⟩ p = true) := by
  refine ⟨by decide, by decide, ?_⟩
  exact (intersects_intersection_spec _ _ (by decide) (by decide)).1

/-- C7 counterexample: a box that `is_empty` reports as empty but whose `min`
is not above the inserted point, so `expand_to_include` does not collapse to
the single inserted point. -/
theorem expand_empty_counterexample :
    BoundingBox.is_empty ⟨⟨XQ.fin 1, XQ.fin 0, XQ.fin 0⟩, ⟨XQ.fin 0, XQ.fin 0, XQ.fin 0⟩⟩ = true ∧
    BoundingBox.contains_point
      (BoundingBox.expand_to_include
        ⟨⟨XQ.fin 1, XQ.fin 0, XQ.fin 0⟩, ⟨XQ.fin 0, XQ.fin 0, XQ.fin 0⟩⟩
        ⟨XQ.fin 5, XQ.fin 5, XQ.fin 5⟩)
      ⟨XQ.fin 1, XQ.fin 0, XQ.fin 0⟩ = true ∧
    (⟨XQ.fin 1, XQ.fin 0, XQ.fin 0⟩ : XV3) ≠ ⟨XQ.fin 5, XQ.fin 5, XQ.fin 5⟩ := by
  decide

/-- C7 amended: expanding the `EMPTY` sentinel yields the box containing
exactly the inserted point, and unioning any box with `EMPTY` is a no-op. -/
theorem empty_sentinel_expand_spec (p : XV3) (b : BoundingBox) :
    (BoundingBox.EMPTY.expand_to_include p = BoundingBox.from_point p ∧
      ∀ q, (BoundingBox.from_point p).contains_point q = true ↔ q = p) ∧
    b.expand_to_include_box BoundingBox.EMPTY = b := by
  refine ⟨⟨?_, ?_⟩, ?_⟩
  · simp only [BoundingBox.expand_to_include, BoundingBox.EMPTY, BoundingBox.from_point,
      XV3.vmin, XV3.vmax]
    ext <;> simp only [] <;>
      first
        | exact min_eq_right (XQ.le_pinf _)
        | exact max_eq_right (XQ.ninf_le _)
  · intro q
    rw [BoundingBox.contains_point_iff]
    simp only [BoundingBox.from_point]
    constructor
    · rintro ⟨⟨h1, h2⟩, ⟨h3, h4⟩, h5, h6⟩
      ext
      · exact le_antisymm h2 h1
      · exact le_antisymm h4 h3
      · exact le_antisymm h6 h5
    · rintro rfl
      exact ⟨⟨le_refl _, le_refl _⟩, ⟨le_refl _, le_refl _⟩, le_refl _, le_refl _⟩
  · simp only [BoundingBox.expand_to_include_box]
    rw [if_pos (by decide)]

/-- The `normalize_angle` truncates toward zero like Rust's `%` on floats. -/
def rat_trunc (x : ℚ) : ℤ :=
  if x < 0 then ⌈x⌉ else ⌊x⌋

/-- Rust's `%` remainder on (finite) floats: `a - b * trunc(a / b)`. -/
def rust_rem (a b : ℚ) : ℚ := a - b * rat_trunc (a / b)

/-- The `normalize_angle`, `src/rotator.rs` and `src/types/rotator.rs`: reduce
modulo 360 with Rust `%`, then fold once into `[-180, 180]`. -/
def normalize_angle (angle : ℚ) : ℚ :=
  if rust_rem angle 360 > 180 then rust_rem angle 360 - 360
  else if rust_rem angle 360 < -180 then rust_rem angle 360 + 360
  else rust_rem angle 360

theorem rust_rem_360_bounds (a : ℚ) : -360 < rust_rem a 360 ∧ rust_rem a 360 < 360 := by
  unfold rust_rem rat_trunc
  by_cases h : a / 360 < 0
  · rw [if_pos h]
    have h1 : (a / 360 : ℚ) ≤ ⌈a / 360⌉ := Int.le_ceil _
    have h2 : (⌈a / 360⌉ : ℚ) < a / 360 + 1 := Int.ceil_lt_add_one _
    constructor <;> nlinarith
  · rw [if_neg h]
    have h1 : ((⌊a / 360⌋ : ℚ)) ≤ a / 360 := Int.floor_le _
    have h2 : (a / 360 : ℚ) < ⌊a / 360⌋ + 1 := Int.lt_floor_add_one _
    constructor <;> nlinarith

theorem normalize_angle_mem (a : ℚ) :
    -180 ≤ normalize_angle a ∧ normalize_angle a ≤ 180 := by
  have h := rust_rem_360_bounds a
  unfold normalize_angle
  split
  · constructor <;> linarith [h.1, h.2]
  · split
    · constructor <;> linarith [h.1, h.2]
    · constructor <;> linarith

theorem normalize_angle_fixed (a : ℚ) (h1 : -180 ≤ a) (h2 : a ≤ 180) :
    normalize_angle a = a := by
  have hrem : rust_rem a 360 = a := by
    unfold rust_rem rat_trunc
    by_cases h : a / 360 < 0
    · rw [if_pos h]
      have : ⌈a / 360⌉ = 0 := by
        rw [Int.ceil_eq_zero_iff]
        constructor
        · show (-1 : ℚ) < a / 360
          linarith
        · linarith
      rw [this]; push_cast; ring
    · rw [if_neg h]
      have : ⌊a / 360⌋ = 0 := by
        rw [Int.floor_eq_zero_iff]
        constructor
        · linarith [not_lt.mp h]
        · show a / 360 < 1
          linarith
      rw [this]; push_cast; ring
  unfold normalize_angle
  rw [hrem]
  rw [if_neg (by linarith), if_neg (by linarith)]

/-- C4: `normalize_angle` maps into `[-180, 180]`, is idempotent, and fixes
the boundary values `180` and `-180`. -/
theorem normalize_angle_spec (a : ℚ) :
    (-180 ≤ normalize_angle a ∧ normalize_angle a ≤ 180) ∧
    normalize_angle (normalize_angle a) = normalize_angle a ∧
    normalize_angle 180 = 180 ∧ normalize_angle (-180) = -180 := by
  have h := normalize_angle_mem a
  refine ⟨h, normalize_angle_fixed _ h.1 h.2, ?_, ?_⟩
  · exact normalize_angle_fixed 180 (by norm_num) (by norm_num)
  · exact normalize_angle_fixed (-180) (by norm_num) (by norm_num)

/-- A 3-component vector over ℝ (finite floats, exact arithmetic). -/
@[ext]
structure V3 where
  x : ℝ
  y : ℝ
  z : ℝ

def V3.zero : V3 := ⟨0, 0, 0⟩

def V3.vadd (a b : V3) : V3 := ⟨a.x + b.x, a.y + b.y, a.z + b.z⟩

def V3.vsub (a b : V3) : V3 := ⟨a.x - b.x, a.y - b.y, a.z - b.z⟩

/-- Scalar multiplication. -/
def V3.smul (c : ℝ) (v : V3) : V3 := ⟨c * v.x, c * v.y, c * v.z⟩

/-- Componentwise product (`glam` vector `*` vector). -/
def V3.vmul (a b : V3) : V3 := ⟨a.x * b.x, a.y * b.y, a.z * b.z⟩

def V3.dot (a b : V3) : ℝ := a.x * b.x + a.y * b.y + a.z * b.z

def V3.cross (a b : V3) : V3 :=
  ⟨a.y * b.z - a.z * b.y, a.z * b.x - a.x * b.z, a.x * b.y - a.y * b.x⟩

def V3.length_squared (v : V3) : ℝ := v.x * v.x + v.y * v.y + v.z * v.z

noncomputable def V3.length (v : V3) : ℝ := Real.sqrt v.length_squared

/-- The `glam` `normalize`: `self * self.length().recip()`. -/
noncomputable def V3.normalize (v : V3) : V3 := V3.smul v.length⁻¹ v

/-- Quaternion, `glam::Quat` field order. -/
@[ext]
structure Quat where
  x : ℝ
  y : ℝ
  z : ℝ
  w : ℝ

/-- Hamilton product, as implemented by `glam` `Quat::mul`. -/
def Quat.qmul (a b : Quat) : Quat :=
  ⟨a.w * b.x + a.x * b.w + a.y * b.z - a.z * b.y,
   a.w * b.y - a.x * b.z + a.y * b.w + a.z * b.x,
   a.w * b.z + a.x * b.y - a.y * b.x + a.z * b.w,
   a.w * b.w - a.x * b.x - a.y * b.y - a.z * b.z⟩

def Quat.qconj (q : Quat) : Quat := ⟨-q.x, -q.y, -q.z, q.w⟩

def Quat.normSq (q : Quat) : ℝ := q.x * q.x + q.y * q.y + q.z * q.z + q.w * q.w

def Quat.qneg (q : Quat) : Quat := ⟨-q.x, -q.y, -q.z, -q.w⟩

/-- The `glam` `Quat::mul_vec3`:
`rhs*(w*w - b.b) + b*(2*(rhs.b)) + (b x rhs)*(2*w)`. -/
def Quat.mul_vec3 (q : Quat) (v : V3) : V3 :=
  let b : V3 := ⟨q.x, q.y, q.z⟩
  (V3.smul (q.w * q.w - V3.dot b b) v).vadd
    ((V3.smul (2 * V3.dot v b) b).vadd (V3.smul (2 * q.w) (V3.cross b v)))

/-- First column of `glam` `Mat3::from_quat`. -/
def Quat.rot_col_x (q : Quat) : V3 :=
  ⟨1 - 2 * (q.y * q.y + q.z * q.z), 2 * (q.x * q.y + q.w * q.z), 2 * (q.x * q.z - q.w * q.y)⟩

/-- Second column of `glam` `Mat3::from_quat`. -/
def Quat.rot_col_y (q : Quat) : V3 :=
  ⟨2 * (q.x * q.y - q.w * q.z), 1 - 2 * (q.x * q.x + q.z * q.z), 2 * (q.y * q.z + q.w * q.x)⟩

/-- Third column of `glam` `Mat3::from_quat`. -/
def Quat.rot_col_z (q : Quat) : V3 :=
  ⟨2 * (q.x * q.z + q.w * q.y), 2 * (q.y * q.z - q.w * q.x), 1 - 2 * (q.x * q.x + q.y * q.y)⟩

/-- Affine 4x4 matrix: the three linear columns and the translation column.
Every matrix built by this code has bottom row `(0,0,0,1)`, which `glam`'s
`transform_point3` and `to_scale_rotation_translation` ignore, so it is left
implicit. -/
@[ext]
structure AMat4 where
  x_axis : V3
  y_axis : V3
  z_axis : V3
  w_axis : V3

/-- The `glam` `Mat4::from_scale_rotation_translation`. -/
def AMat4.from_scale_rotation_translation (scale : V3) (rotation : Quat) (translation : V3) :
    AMat4 :=
  ⟨V3.smul scale.x rotation.rot_col_x, V3.smul scale.y rotation.rot_col_y,
   V3.smul scale.z rotation.rot_col_z, translation⟩

/-- The `glam` `Mat4::transform_point3` for an affine matrix. -/
def AMat4.transform_point3 (m : AMat4) (p : V3) : V3 :=
  ((V3.smul p.x m.x_axis).vadd ((V3.smul p.y m.y_axis).vadd (V3.smul p.z m.z_axis))).vadd
    m.w_axis

/-- The linear (upper-left 3x3) part of an affine matrix applied to a vector. -/
def AMat4.lin_apply (m : AMat4) (v : V3) : V3 :=
  (V3.smul v.x m.x_axis).vadd ((V3.smul v.y m.y_axis).vadd (V3.smul v.z m.z_axis))

/-- The `glam` `Mat4::mul` restricted to affine matrices (bottom rows `(0,0,0,1)`). -/
def AMat4.matmul (a b : AMat4) : AMat4 :=
  ⟨a.lin_apply b.x_axis, a.lin_apply b.y_axis, a.lin_apply b.z_axis,
   (a.lin_apply b.w_axis).vadd a.w_axis⟩

/-- Determinant of an affine matrix (equals the 3x3 determinant). -/
def AMat4.det (m : AMat4) : ℝ := V3.dot m.x_axis (V3.cross m.y_axis m.z_axis)

/-- The `Transform`, `src/types/transform.rs`. -/
@[ext]
structure Transform where
  location : V3
  rotation : Quat
  scale : V3

/-- The `Transform::to_matrix`. -/
def Transform.to_matrix (t : Transform) : AMat4 :=
  AMat4.from_scale_rotation_translation t.scale t.rotation t.location

/-- The `Transform::transform_point`: `self.to_matrix().transform_point3(point)`. -/
def Transform.transform_point (t : Transform) (point : V3) : V3 :=
  t.to_matrix.transform_point3 point

/-- The `Transform::transform_vector`: `self.rotation * (vector * self.scale)`. -/
def Transform.transform_vector (t : Transform) (vector : V3) : V3 :=
  t.rotation.mul_vec3 (vector.vmul t.scale)

theorem transform_point_eq_srt (t : Transform) (p : V3)
    (h : t.rotation.normSq = 1) :
    t.transform_point p = (t.rotation.mul_vec3 (t.scale.vmul p)).vadd t.location := by
  obtain ⟨⟨lx, ly, lz⟩, ⟨qx, qy, qz, qw⟩, ⟨sx, sy, sz⟩⟩ := t
  simp only [Quat.normSq] at h
  ext <;>
    simp only [Transform.transform_point, Transform.to_matrix,
      AMat4.from_scale_rotation_translation, AMat4.transform_point3, Quat.rot_col_x,
      Quat.rot_col_y, Quat.rot_col_z, Quat.mul_vec3, V3.smul, V3.vadd, V3.vmul, V3.dot,
      V3.cross]
  · linear_combination (-(sx * p.x)) * h
  · linear_combination (-(sy * p.y)) * h
  · linear_combination (-(sz * p.z)) * h

/-- C8: for a transform whose rotation satisfies the data-model unit-norm
invariant, `transform_point` is exactly scale, then quaternion rotation, then
translation. -/
theorem transform_point_affine (t : Transform) (p : V3)
    (h : t.rotation.normSq = 1) :
    t.transform_point p = (t.rotation.mul_vec3 (t.scale.vmul p)).vadd t.location :=
  transform_point_eq_srt t p h

/-- C8 witness at a concrete unit quaternion, scale, and point. -/
theorem transform_point_affine_witness :
    Quat.normSq ⟨1/2, 1/2, 1/2, 1/2⟩ = 1 ∧
    Transform.transform_point ⟨⟨1, 2, 3⟩, ⟨1/2, 1/2, 1/2, 1/2⟩, ⟨2, 3, 4⟩⟩ ⟨5, 6, 7⟩ =
      (Quat.mul_vec3 ⟨1/2, 1/2, 1/2, 1/2⟩ (V3.vmul ⟨2, 3, 4⟩ ⟨5, 6, 7⟩)).vadd ⟨1, 2, 3⟩ := by
  constructor
  · norm_num [Quat.normSq]
  · exact transform_point_affine ⟨⟨1, 2, 3⟩, ⟨1/2, 1/2, 1/2, 1/2⟩, ⟨2, 3, 4⟩⟩ ⟨5, 6, 7⟩
      (by norm_num [Quat.normSq])

/-- The `Ray`, `src/types/math/ray.rs`. -/
structure Ray where
  origin : V3
  direction : V3

/-- The `Ray::new`: the direction is normalized at construction. -/
noncomputable def Ray.new (origin direction : V3) : Ray :=
  ⟨origin, direction.normalize⟩

/-- The `Ray::from_origin_to_target`. -/
noncomputable def Ray.from_origin_to_target (origin target : V3) : Ray :=
  Ray.new origin (target.vsub origin)

/-- The `Ray::transform`. -/
noncomputable def Ray.transform (r : Ray) (t : Transform) : Ray :=
  ⟨t.transform_point r.origin, (t.transform_vector r.direction).normalize⟩

theorem V3.length_squared_nonneg (v : V3) : 0 ≤ v.length_squared := by
  simp only [V3.length_squared]
  nlinarith [mul_self_nonneg v.x, mul_self_nonneg v.y, mul_self_nonneg v.z]

theorem V3.length_squared_pos_of_ne_zero (v : V3) (h : v ≠ V3.zero) :
    0 < v.length_squared := by
  rcases lt_or_eq_of_le (V3.length_squared_nonneg v) with hlt | heq
  · exact hlt
  · exfalso
    apply h
    simp only [V3.length_squared] at heq
    have hx : v.x * v.x = 0 := by
      nlinarith [mul_self_nonneg v.x, mul_self_nonneg v.y, mul_self_nonneg v.z]
    have hy : v.y * v.y = 0 := by
      nlinarith [mul_self_nonneg v.x, mul_self_nonneg v.y, mul_self_nonneg v.z]
    have hz : v.z * v.z = 0 := by
      nlinarith [mul_self_nonneg v.x, mul_self_nonneg v.y, mul_self_nonneg v.z]
    ext
    · exact mul_self_eq_zero.mp hx
    · exact mul_self_eq_zero.mp hy
    · exact mul_self_eq_zero.mp hz

theorem V3.length_pos_of_ne_zero (v : V3) (h : v ≠ V3.zero) : 0 < v.length :=
  Real.sqrt_pos.mpr (V3.length_squared_pos_of_ne_zero v h)

theorem V3.length_smul (c : ℝ) (v : V3) : (V3.smul c v).length = |c| * v.length := by
  simp only [V3.length, V3.length_squared, V3.smul]
  rw [show c * v.x * (c * v.x) + c * v.y * (c * v.y) + c * v.z * (c * v.z) =
    c ^ 2 * (v.x * v.x + v.y * v.y + v.z * v.z) by ring]
  rw [Real.sqrt_mul (sq_nonneg c), Real.sqrt_sq_eq_abs]

theorem V3.length_normalize_of_ne_zero (v : V3) (h : v ≠ V3.zero) :
    v.normalize.length = 1 := by
  have hpos := V3.length_pos_of_ne_zero v h
  rw [V3.normalize, V3.length_smul, abs_of_pos (inv_pos.mpr hpos), inv_mul_cancel₀ hpos.ne']

/-- C9 amended: the constructors and `transform` produce a unit-length
direction whenever the vector being normalized is nonzero. -/
theorem ray_direction_unit (o d origin target : V3) (t : Transform) (r : Ray) :
    (d ≠ V3.zero → (Ray.new o d).direction.length = 1) ∧
    (target.vsub origin ≠ V3.zero →
      (Ray.from_origin_to_target origin target).direction.length = 1) ∧
    (t.transform_vector r.direction ≠ V3.zero →
      ((r.transform t)).direction.length = 1) := by
  refine ⟨?_, ?_, ?_⟩
  · intro h
    exact V3.length_normalize_of_ne_zero d h
  · intro h
    exact V3.length_normalize_of_ne_zero _ h
  · intro h
    exact V3.length_normalize_of_ne_zero _ h

/-- C9 witness at a concrete nonzero direction. -/
theorem ray_direction_unit_witness :
    (⟨3, 4, 0⟩ : V3) ≠ V3.zero ∧ (Ray.new V3.zero ⟨3, 4, 0⟩).direction.length = 1 := by
  have hne : (⟨3, 4, 0⟩ : V3) ≠ V3.zero := by
    intro h
    have := congrArg V3.x h
    norm_num [V3.zero] at this
  exact ⟨hne,
    (ray_direction_unit V3.zero ⟨3, 4, 0⟩ V3.zero V3.zero
      ⟨V3.zero, ⟨0, 0, 0, 1⟩, ⟨1, 1, 1⟩⟩ ⟨V3.zero, V3.zero⟩).1 hne⟩

/-- C9 counterexample: `Ray::new` accepts the zero direction and yields a
direction that is not unit length (`NaN` in the floating-point code, the zero
vector in the exact model). -/
theorem ray_zero_direction_counterexample :
    (Ray.new V3.zero V3.zero).direction.length ≠ 1 := by
  have hz : (Ray.new V3.zero V3.zero).direction = V3.zero := by
    simp only [Ray.new, V3.normalize, V3.smul, V3.zero]
    ext <;> simp
  rw [hz]
  simp only [V3.length, V3.length_squared, V3.zero]
  norm_num


/-- The `glam` `Quat::from_rotation_x`: rotation of `a` radians about the X axis. -/
noncomputable def Quat.from_rotation_x (a : ℝ) : Quat :=
  ⟨Real.sin (a / 2), 0, 0, Real.cos (a / 2)⟩

/-- The `glam` `Quat::from_rotation_y`. -/
noncomputable def Quat.from_rotation_y (a : ℝ) : Quat :=
  ⟨0, Real.sin (a / 2), 0, Real.cos (a / 2)⟩

/-- The `glam` `Quat::from_rotation_z`. -/
noncomputable def Quat.from_rotation_z (a : ℝ) : Quat :=
  ⟨0, 0, Real.sin (a / 2), Real.cos (a / 2)⟩

/-- The `glam` `Quat::from_euler(EulerRot::YXZ, a, b, c)`: the intrinsic rotation
sequence Y (by `a`), then X (by `b`), then Z (by `c`). -/
noncomputable def Quat.from_euler_yxz (a b c : ℝ) : Quat :=
  ((Quat.from_rotation_y a).qmul (Quat.from_rotation_x b)).qmul (Quat.from_rotation_z c)

/-- The `glam` `Quat::from_euler(EulerRot::ZYX, a, b, c)`: the intrinsic rotation
sequence Z (by `a`), then Y (by `b`), then X (by `c`). -/
noncomputable def Quat.from_euler_zyx (a b c : ℝ) : Quat :=
  ((Quat.from_rotation_z a).qmul (Quat.from_rotation_y b)).qmul (Quat.from_rotation_x c)

/-- The `Rotator`: pitch, yaw, roll in degrees. -/
structure Rotator where
  pitch : ℝ
  yaw : ℝ
  roll : ℝ

/-- Rust `to_radians`. -/
noncomputable def to_radians (d : ℝ) : ℝ := d * (Real.pi / 180)

/-- Rust `to_degrees`. -/
noncomputable def to_degrees (r : ℝ) : ℝ := r * (180 / Real.pi)

/-- The `Rotator::to_quaternion` of `src/rotator.rs`:
`Quat::from_euler(EulerRot::YXZ, yaw_rad, pitch_rad, roll_rad)`. -/
noncomputable def Rotator.to_quaternion_top (r : Rotator) : Quat :=
  Quat.from_euler_yxz (to_radians r.yaw) (to_radians r.pitch) (to_radians r.roll)

/-- The `Rotator::to_quaternion` of `src/types/rotator.rs`:
`Quat::from_euler(EulerRot::ZYX, yaw_rad, pitch_rad, roll_rad)`. -/
noncomputable def Rotator.to_quaternion_types (r : Rotator) : Quat :=
  Quat.from_euler_zyx (to_radians r.yaw) (to_radians r.pitch) (to_radians r.roll)

theorem to_quaternion_top_pure_pitch :
    Rotator.to_quaternion_top ⟨90, 0, 0⟩ =
      ⟨Real.sin (Real.pi / 4), 0, 0, Real.cos (Real.pi / 4)⟩ := by
  have hr : to_radians 90 = Real.pi / 2 := by unfold to_radians; ring
  have hr0 : to_radians 0 = 0 := by unfold to_radians; ring
  have h24 : Real.pi / 2 / 2 = Real.pi / 4 := by ring
  have h02 : (0 : ℝ) / 2 = 0 := by norm_num
  simp only [Rotator.to_quaternion_top, Quat.from_euler_yxz, hr, hr0, h24, h02,
    Quat.from_rotation_x, Quat.from_rotation_y, Quat.from_rotation_z, Quat.qmul,
    Real.sin_zero, Real.cos_zero, Quat.mk.injEq]
  refine ⟨?_, ?_, ?_, ?_⟩ <;> ring

theorem to_quaternion_types_pure_pitch :
    Rotator.to_quaternion_types ⟨90, 0, 0⟩ =
      ⟨0, Real.sin (Real.pi / 4), 0, Real.cos (Real.pi / 4)⟩ := by
  have hr : to_radians 90 = Real.pi / 2 := by unfold to_radians; ring
  have hr0 : to_radians 0 = 0 := by unfold to_radians; ring
  have h24 : Real.pi / 2 / 2 = Real.pi / 4 := by ring
  have h02 : (0 : ℝ) / 2 = 0 := by norm_num
  simp only [Rotator.to_quaternion_types, Quat.from_euler_zyx, hr, hr0, h24, h02,
    Quat.from_rotation_x, Quat.from_rotation_y, Quat.from_rotation_z, Quat.qmul,
    Real.sin_zero, Real.cos_zero, Quat.mk.injEq]
  refine ⟨?_, ?_, ?_, ?_⟩ <;> ring

/-- C2 counterexample: at the rotator with pitch 90, yaw 0, roll 0, the two
`to_quaternion` revisions produce quaternions that are neither equal nor
negations of each other (one rotates about X, the other about Y). -/
theorem to_quaternion_revisions_counterexample :
    Rotator.to_quaternion_top ⟨90, 0, 0⟩ ≠ Rotator.to_quaternion_types ⟨90, 0, 0⟩ ∧
    Rotator.to_quaternion_top ⟨90, 0, 0⟩ ≠
      (Rotator.to_quaternion_types ⟨90, 0, 0⟩).qneg := by
  have hs : Real.sin (Real.pi / 4) ≠ 0 := by
    rw [Real.sin_pi_div_four]
    positivity
  rw [to_quaternion_top_pure_pitch, to_quaternion_types_pure_pitch]
  constructor
  · intro h
    have hy : (0 : ℝ) = Real.sin (Real.pi / 4) := congrArg Quat.y h
    exact hs hy.symm
  · intro h
    have hy : (0 : ℝ) = -Real.sin (Real.pi / 4) := congrArg Quat.y h
    apply hs
    linarith

/-- The fixed axis-relabelling quaternion (rotation by 120 degrees about the
diagonal (1,1,1)): conjugation by it maps the X axis to Y, Y to Z, Z to X. -/
noncomputable def axis_cycle : Quat := ⟨1/2, 1/2, 1/2, 1/2⟩

/-- C2 amended: each revision uses its own single fixed Euler order, and the
two revisions differ: for every rotator the `types` revision's quaternion is
the conjugate of the top-level revision's quaternion by the fixed
axis-relabelling `axis_cycle`, not the same rotation up to sign. -/
theorem to_quaternion_revisions_conjugate (r : Rotator) :
    r.to_quaternion_types =
      (axis_cycle.qmul r.to_quaternion_top).qmul axis_cycle.qconj := by
  simp only [Rotator.to_quaternion_types, Rotator.to_quaternion_top, Quat.from_euler_zyx,
    Quat.from_euler_yxz, Quat.from_rotation_x, Quat.from_rotation_y, Quat.from_rotation_z,
    Quat.qmul, Quat.qconj, axis_cycle]
  ext <;> ring

/-- Extended reals with NaN: the `f64` values, with finite values idealised as
exact reals (no rounding or overflow of finite results). -/
inductive EF where
  | nan : EF
  | pinf : EF
  | ninf : EF
  | fin (r : ℝ) : EF

def EF.is_finite : EF → Bool
  | .fin _ => true
  | _ => false

def EF.is_nan : EF → Bool
  | .nan => true
  | _ => false

def EF.is_infinite : EF → Bool
  | .pinf => true
  | .ninf => true
  | _ => false

/-- IEEE addition. -/
def EF.add : EF → EF → EF
  | .nan, _ => .nan
  | _, .nan => .nan
  | .pinf, .ninf => .nan
  | .ninf, .pinf => .nan
  | .pinf, _ => .pinf
  | _, .pinf => .pinf
  | .ninf, _ => .ninf
  | _, .ninf => .ninf
  | .fin a, .fin b => .fin (a + b)

open Classical in
/-- IEEE multiplication (`0 * inf = NaN`). -/
noncomputable def EF.mul : EF → EF → EF
  | .nan, _ => .nan
  | _, .nan => .nan
  | .fin a, .fin b => .fin (a * b)
  | .pinf, .pinf => .pinf
  | .pinf, .ninf => .ninf
  | .ninf, .pinf => .ninf
  | .ninf, .ninf => .pinf
  | .pinf, .fin b => if 0 < b then .pinf else if b < 0 then .ninf else .nan
  | .fin a, .pinf => if 0 < a then .pinf else if a < 0 then .ninf else .nan
  | .ninf, .fin b => if 0 < b then .ninf else if b < 0 then .pinf else .nan
  | .fin a, .ninf => if 0 < a then .ninf else if a < 0 then .pinf else .nan

open Classical in
/-- IEEE division (zero is treated as `+0`). -/
noncomputable def EF.div : EF → EF → EF
  | .nan, _ => .nan
  | _, .nan => .nan
  | .pinf, .pinf => .nan
  | .pinf, .ninf => .nan
  | .ninf, .pinf => .nan
  | .ninf, .ninf => .nan
  | .fin _, .pinf => .fin 0
  | .fin _, .ninf => .fin 0
  | .pinf, .fin b => if b < 0 then .ninf else .pinf
  | .ninf, .fin b => if b < 0 then .pinf else .ninf
  | .fin a, .fin b =>
      if b = 0 then (if a = 0 then .nan else if 0 < a then .pinf else .ninf)
      else .fin (a / b)

open Classical in
/-- IEEE square root. -/
noncomputable def EF.sqrt : EF → EF
  | .nan => .nan
  | .pinf => .pinf
  | .ninf => .nan
  | .fin a => if a < 0 then .nan else .fin (Real.sqrt a)

/-- IEEE `<` (false whenever either side is NaN). -/
def EF.flt : EF → EF → Prop
  | .nan, _ => False
  | _, .nan => False
  | .ninf, .ninf => False
  | .ninf, .pinf => True
  | .ninf, .fin _ => True
  | .pinf, _ => False
  | .fin _, .pinf => True
  | .fin _, .ninf => False
  | .fin a, .fin b => a < b

/-- IEEE `==` (false whenever either side is NaN). -/
def EF.feq : EF → EF → Prop
  | .fin a, .fin b => a = b
  | .pinf, .pinf => True
  | .ninf, .ninf => True
  | _, _ => False

/-- A 3-vector of `f64` values including the non-finite ones. -/
@[ext]
structure EV3 where
  x : EF
  y : EF
  z : EF

def EV3.zero : EV3 := ⟨.fin 0, .fin 0, .fin 0⟩

/-- The `glam` `length_squared`: `x*x + y*y + z*z`. -/
noncomputable def EV3.length_squared (v : EV3) : EF :=
  ((v.x.mul v.x).add (v.y.mul v.y)).add (v.z.mul v.z)

noncomputable def EV3.length (v : EV3) : EF := v.length_squared.sqrt

/-- Componentwise division by a scalar (`DVec3 / f64`). -/
noncomputable def EV3.divs (v : EV3) (c : EF) : EV3 := ⟨v.x.div c, v.y.div c, v.z.div c⟩

/-- Componentwise multiplication by a scalar (`Vec3 * f32`). -/
noncomputable def EV3.muls (v : EV3) (c : EF) : EV3 := ⟨v.x.mul c, v.y.mul c, v.z.mul c⟩

open Classical in
/-- The `get_safe_normal` of `src/types/vector.rs` (the `f64` revision with the
four-stage guard).  The source binds `square_sum`, `len` and `norm` with
`let`; they are inlined here. -/
noncomputable def get_safe_normal_f64 (v : EV3) (tolerance : EF) : EV3 :=
  if EF.feq v.length_squared (.fin 1) then v
  else if EF.flt v.length_squared (tolerance.mul tolerance) then EV3.zero
  else if ¬ v.length_squared.is_finite = true ∨ v.length_squared.is_nan = true then EV3.zero
  else if ¬ v.length_squared.sqrt.is_finite = true ∨ v.length_squared.sqrt.is_nan = true ∨
      EF.feq v.length_squared.sqrt (.fin 0) then EV3.zero
  else if (EV3.divs v v.length_squared.sqrt).length.is_infinite = true ∨
      (EV3.divs v v.length_squared.sqrt).length.is_nan = true then EV3.zero
  else EV3.divs v v.length_squared.sqrt

open Classical in
/-- The `get_safe_normal` of `src/vector.rs` (the `f32` revision without the
non-finite guards); the final `self.normalize()` is glam's
`self * self.length().recip()`. -/
noncomputable def get_safe_normal_f32 (v : EV3) (tolerance : EF) : EV3 :=
  if EF.feq v.length_squared (.fin 1) then v
  else if EF.flt v.length_squared (tolerance.mul tolerance) then EV3.zero
  else EV3.muls v (EF.div (.fin 1) v.length)

theorem EF.feq_fin_right (a : EF) (r : ℝ) (h : EF.feq a (.fin r)) : a = .fin r := by
  cases a <;> simp_all [EF.feq]

theorem EV3.length_squared_fin (v : EV3) (s : ℝ) (h : v.length_squared = .fin s) :
    ∃ a b c : ℝ, v.x = .fin a ∧ v.y = .fin b ∧ v.z = .fin c ∧ s = a * a + b * b + c * c := by
  obtain ⟨x, y, z⟩ := v
  cases x <;> cases y <;> cases z <;>
    simp_all [EV3.length_squared, EF.mul, EF.add]

theorem ev3_zero_finite :
    EV3.zero.x.is_finite = true ∧ EV3.zero.y.is_finite = true ∧
      EV3.zero.z.is_finite = true := ⟨rfl, rfl, rfl⟩

/-- C1 amended: the `f64` revision (`src/types/vector.rs`) satisfies the
four-stage-guard contract: for every input (including non-finite components)
the result has only finite components and is either the exact zero vector or
has length within 0.01 of 1 (exactly 1 in the exact model). -/
theorem get_safe_normal_f64_safe (v : EV3) (tolerance : EF) :
    ((get_safe_normal_f64 v tolerance).x.is_finite = true ∧
     (get_safe_normal_f64 v tolerance).y.is_finite = true ∧
     (get_safe_normal_f64 v tolerance).z.is_finite = true) ∧
    (get_safe_normal_f64 v tolerance = EV3.zero ∨
      ∃ l : ℝ, (get_safe_normal_f64 v tolerance).length = EF.fin l ∧ |l - 1| ≤ 1 / 100) := by
  by_cases h1 : EF.feq v.length_squared (.fin 1)
  · have hss : v.length_squared = .fin 1 := EF.feq_fin_right _ _ h1
    obtain ⟨a, b, c, hx, hy, hz, hsum⟩ := EV3.length_squared_fin v 1 hss
    have hres : get_safe_normal_f64 v tolerance = v := by
      simp only [get_safe_normal_f64]
      rw [if_pos h1]
    rw [hres]
    refine ⟨⟨?_, ?_, ?_⟩, Or.inr ⟨1, ?_, by norm_num⟩⟩
    · rw [hx]; rfl
    · rw [hy]; rfl
    · rw [hz]; rfl
    · rw [EV3.length, hss]
      simp only [EF.sqrt]
      rw [if_neg (by norm_num), Real.sqrt_one]
  · by_cases h2 : EF.flt v.length_squared (tolerance.mul tolerance)
    · have hres : get_safe_normal_f64 v tolerance = EV3.zero := by
        simp only [get_safe_normal_f64]
        rw [if_neg h1, if_pos h2]
      rw [hres]
      exact ⟨ev3_zero_finite, Or.inl rfl⟩
    · by_cases h3 : ¬ v.length_squared.is_finite = true ∨ v.length_squared.is_nan = true
      · have hres : get_safe_normal_f64 v tolerance = EV3.zero := by
          simp only [get_safe_normal_f64]
          rw [if_neg h1, if_neg h2, if_pos h3]
        rw [hres]
        exact ⟨ev3_zero_finite, Or.inl rfl⟩
      · have hfin : v.length_squared.is_finite = true := by
          rcases not_or.mp h3 with ⟨hf, -⟩
          exact not_not.mp hf
        have hs' : ∃ s : ℝ, v.length_squared = .fin s := by
          cases hq : v.length_squared <;> simp_all [EF.is_finite]
        obtain ⟨s, hss⟩ := hs'
        obtain ⟨a, b, c, hx, hy, hz, hsum⟩ := EV3.length_squared_fin v s hss
        have hs0 : 0 ≤ s := by
          rw [hsum]
          nlinarith [mul_self_nonneg a, mul_self_nonneg b, mul_self_nonneg c]
        have hlen : EF.sqrt v.length_squared = .fin (Real.sqrt s) := by
          rw [hss]
          simp only [EF.sqrt]
          rw [if_neg (not_lt.mpr hs0)]
        by_cases h4 : ¬ (EF.sqrt v.length_squared).is_finite = true ∨
            (EF.sqrt v.length_squared).is_nan = true ∨
            EF.feq (EF.sqrt v.length_squared) (.fin 0)
        · have hres : get_safe_normal_f64 v tolerance = EV3.zero := by
            simp only [get_safe_normal_f64]
            rw [if_neg h1, if_neg h2, if_neg h3, if_pos h4]
          rw [hres]
          exact ⟨ev3_zero_finite, Or.inl rfl⟩
        · have hsqrt_ne : Real.sqrt s ≠ 0 := by
            intro h0
            apply h4
            right; right
            rw [hlen, h0]
            simp [EF.feq]
          have hspos : 0 < s := by
            rcases lt_or_eq_of_le hs0 with h | h
            · exact h
            · exact absurd (by rw [← h, Real.sqrt_zero]) hsqrt_ne
          have hnorm : EV3.divs v (EF.sqrt v.length_squared) =
              ⟨.fin (a / Real.sqrt s), .fin (b / Real.sqrt s), .fin (c / Real.sqrt s)⟩ := by
            rw [EV3.divs, hlen, hx, hy, hz]
            simp only [EF.div]
            rw [if_neg hsqrt_ne, if_neg hsqrt_ne, if_neg hsqrt_ne]
          have hsqs : Real.sqrt s * Real.sqrt s = s := Real.mul_self_sqrt hs0
          have hsum1 : a / Real.sqrt s * (a / Real.sqrt s) + b / Real.sqrt s * (b / Real.sqrt s) +
              c / Real.sqrt s * (c / Real.sqrt s) = 1 := by
            rw [div_mul_div_comm, div_mul_div_comm, div_mul_div_comm, hsqs,
              div_add_div_same, div_add_div_same, ← hsum]
            exact div_self hspos.ne'
          have hlsq : (⟨.fin (a / Real.sqrt s), .fin (b / Real.sqrt s),
              .fin (c / Real.sqrt s)⟩ : EV3).length_squared = .fin 1 := by
            simp only [EV3.length_squared, EF.mul, EF.add, hsum1]
          have hnlen : (EV3.divs v (EF.sqrt v.length_squared)).length = .fin 1 := by
            rw [EV3.length, hnorm, hlsq]
            simp only [EF.sqrt]
            rw [if_neg (by norm_num), Real.sqrt_one]
          have h5 : ¬ ((EV3.divs v (EF.sqrt v.length_squared)).length.is_infinite = true ∨
              (EV3.divs v (EF.sqrt v.length_squared)).length.is_nan = true) := by
            rw [hnlen]
            simp [EF.is_infinite, EF.is_nan]
          have hres : get_safe_normal_f64 v tolerance =
              EV3.divs v (EF.sqrt v.length_squared) := by
            simp only [get_safe_normal_f64]
            rw [if_neg h1, if_neg h2, if_neg h3, if_neg h4, if_neg h5]
          rw [hres]
          refine ⟨⟨?_, ?_, ?_⟩, Or.inr ⟨1, hnlen, by norm_num⟩⟩
          · rw [hnorm]; rfl
          · rw [hnorm]; rfl
          · rw [hnorm]; rfl

/-- C1 counterexample: the `f32` revision (`src/vector.rs`) has no
non-finite guard; an infinite input component produces a NaN component
(`inf * (1/inf) = inf * 0 = NaN`). -/
theorem get_safe_normal_f32_nan_counterexample :
    (get_safe_normal_f32 ⟨.pinf, .fin 0, .fin 0⟩ (.fin (1 / 1000))).x = EF.nan := by
  have hss : (⟨.pinf, .fin 0, .fin 0⟩ : EV3).length_squared = .pinf := rfl
  have hlen : (⟨.pinf, .fin 0, .fin 0⟩ : EV3).length = .pinf := by
    rw [EV3.length, hss]; rfl
  have h1 : ¬ EF.feq (⟨.pinf, .fin 0, .fin 0⟩ : EV3).length_squared (.fin 1) := by
    rw [hss]; simp [EF.feq]
  have h2 : ¬ EF.flt (⟨.pinf, .fin 0, .fin 0⟩ : EV3).length_squared
      (EF.mul (.fin (1 / 1000)) (.fin (1 / 1000))) := by
    rw [hss]
    simp [EF.mul, EF.flt]
  simp only [get_safe_normal_f32]
  rw [if_neg h1, if_neg h2, hlen]
  show EF.mul EF.pinf (EF.div (.fin 1) EF.pinf) = EF.nan
  have hdiv : EF.div (.fin 1) EF.pinf = .fin 0 := rfl
  rw [hdiv]
  simp only [EF.mul]
  rw [if_neg (lt_irrefl 0), if_neg (lt_irrefl 0)]

/-- Two-argument arctangent, the `atan2` of the float libraries: the argument
of the complex number `x + y i`, in `(-pi, pi]`. -/
noncomputable def atan2 (y x : ℝ) : ℝ := Complex.arg ⟨x, y⟩

/-- Semantics of `glam` `Quat::to_euler(EulerRot::ZYX)`: the standard
extraction of the intrinsic Z (yaw), Y (pitch), X (roll) angles from a unit
quaternion, returned in axis order `(z, y, x)`. -/
noncomputable def Quat.to_euler_zyx (q : Quat) : ℝ × ℝ × ℝ :=
  (atan2 (2 * (q.x * q.y + q.w * q.z)) (1 - 2 * (q.y * q.y + q.z * q.z)),
   Real.arcsin (2 * (q.w * q.y - q.x * q.z)),
   atan2 (2 * (q.y * q.z + q.w * q.x)) (1 - 2 * (q.x * q.x + q.y * q.y)))

/-- Semantics of `glam` `Quat::to_euler(EulerRot::YXZ)`: extraction of the
intrinsic Y, X, Z angles, returned in axis order `(y, x, z)`. -/
noncomputable def Quat.to_euler_yxz (q : Quat) : ℝ × ℝ × ℝ :=
  (atan2 (2 * (q.x * q.z + q.w * q.y)) (1 - 2 * (q.x * q.x + q.y * q.y)),
   Real.arcsin (2 * (q.w * q.x - q.y * q.z)),
   atan2 (2 * (q.x * q.y + q.w * q.z)) (1 - 2 * (q.x * q.x + q.z * q.z)))

/-- The `Rotator::from_quaternion` of `src/types/rotator.rs`: ZYX extraction,
`(z, y, x) = (yaw, pitch, roll)`, converted to degrees. -/
noncomputable def Rotator.from_quaternion_types (q : Quat) : Rotator :=
  ⟨to_degrees q.to_euler_zyx.2.1, to_degrees q.to_euler_zyx.1, to_degrees q.to_euler_zyx.2.2⟩

/-- The `Rotator::from_quaternion` of `src/rotator.rs`: YXZ extraction,
`(yaw, pitch, roll)`, converted to degrees. -/
noncomputable def Rotator.from_quaternion_top (q : Quat) : Rotator :=
  ⟨to_degrees q.to_euler_yxz.2.1, to_degrees q.to_euler_yxz.1, to_degrees q.to_euler_yxz.2.2⟩

theorem sin_as_half (x : ℝ) : Real.sin x = 2 * Real.sin (x / 2) * Real.cos (x / 2) := by
  have h := Real.sin_two_mul (x / 2)
  rw [show 2 * (x / 2) = x by ring] at h
  exact h

theorem cos_as_half (x : ℝ) : Real.cos x = 2 * Real.cos (x / 2) ^ 2 - 1 := by
  have h := Real.cos_two_mul (x / 2)
  rw [show 2 * (x / 2) = x by ring] at h
  exact h

theorem atan2_cos_mul (r θ : ℝ) (hr : 0 < r) (h1 : -Real.pi < θ) (h2 : θ ≤ Real.pi) :
    atan2 (r * Real.sin θ) (r * Real.cos θ) = θ := by
  unfold atan2
  have hmk : (⟨r * Real.cos θ, r * Real.sin θ⟩ : ℂ) =
      (r : ℂ) * ((Real.cos θ : ℂ) + (Real.sin θ : ℂ) * Complex.I) := by
    apply Complex.ext <;>
      simp only [Complex.mul_re, Complex.mul_im, Complex.add_re, Complex.add_im,
        Complex.ofReal_re, Complex.ofReal_im, Complex.I_re, Complex.I_im] <;>
      ring
  rw [hmk, Complex.arg_real_mul _ hr, Complex.ofReal_cos, Complex.ofReal_sin]
  exact Complex.arg_cos_add_sin_mul_I ⟨h1, h2⟩

theorem zyx_sin_pitch (a b c : ℝ) :
    2 * ((Quat.from_euler_zyx a b c).w * (Quat.from_euler_zyx a b c).y -
      (Quat.from_euler_zyx a b c).x * (Quat.from_euler_zyx a b c).z) = Real.sin b := by
  simp only [Quat.from_euler_zyx, Quat.from_rotation_x, Quat.from_rotation_y,
    Quat.from_rotation_z, Quat.qmul]
  rw [sin_as_half b]
  linear_combination (2 * Real.sin (b / 2) * Real.cos (b / 2) *
      (Real.sin (c / 2) ^ 2 + Real.cos (c / 2) ^ 2)) * Real.sin_sq_add_cos_sq (a / 2) +
    (2 * Real.sin (b / 2) * Real.cos (b / 2)) * Real.sin_sq_add_cos_sq (c / 2)

theorem zyx_yaw_num (a b c : ℝ) :
    2 * ((Quat.from_euler_zyx a b c).x * (Quat.from_euler_zyx a b c).y +
      (Quat.from_euler_zyx a b c).w * (Quat.from_euler_zyx a b c).z) =
      Real.cos b * Real.sin a := by
  simp only [Quat.from_euler_zyx, Quat.from_rotation_x, Quat.from_rotation_y,
    Quat.from_rotation_z, Quat.qmul]
  rw [cos_as_half b, sin_as_half a]
  linear_combination (2 * Real.sin (a / 2) * Real.cos (a / 2) *
      (Real.cos (b / 2) ^ 2 - Real.sin (b / 2) ^ 2)) * Real.sin_sq_add_cos_sq (c / 2) -
    (2 * Real.sin (a / 2) * Real.cos (a / 2)) * Real.sin_sq_add_cos_sq (b / 2)

theorem zyx_yaw_den (a b c : ℝ) :
    1 - 2 * ((Quat.from_euler_zyx a b c).y * (Quat.from_euler_zyx a b c).y +
      (Quat.from_euler_zyx a b c).z * (Quat.from_euler_zyx a b c).z) =
      Real.cos b * Real.cos a := by
  simp only [Quat.from_euler_zyx, Quat.from_rotation_x, Quat.from_rotation_y,
    Quat.from_rotation_z, Quat.qmul]
  rw [cos_as_half b, cos_as_half a]
  linear_combination (-2 * (Real.cos (a / 2) ^ 2 * Real.sin (b / 2) ^ 2 +
      Real.sin (a / 2) ^ 2 * Real.cos (b / 2) ^ 2)) * Real.sin_sq_add_cos_sq (c / 2) +
    (-2 * Real.cos (a / 2) ^ 2) * Real.sin_sq_add_cos_sq (b / 2) +
    (-2 * Real.cos (b / 2) ^ 2) * Real.sin_sq_add_cos_sq (a / 2)

theorem zyx_roll_num (a b c : ℝ) :
    2 * ((Quat.from_euler_zyx a b c).y * (Quat.from_euler_zyx a b c).z +
      (Quat.from_euler_zyx a b c).w * (Quat.from_euler_zyx a b c).x) =
      Real.cos b * Real.sin c := by
  simp only [Quat.from_euler_zyx, Quat.from_rotation_x, Quat.from_rotation_y,
    Quat.from_rotation_z, Quat.qmul]
  rw [cos_as_half b, sin_as_half c]
  linear_combination (2 * Real.sin (c / 2) * Real.cos (c / 2) *
      (Real.cos (b / 2) ^ 2 - Real.sin (b / 2) ^ 2)) * Real.sin_sq_add_cos_sq (a / 2) -
    (2 * Real.sin (c / 2) * Real.cos (c / 2)) * Real.sin_sq_add_cos_sq (b / 2)

theorem zyx_roll_den (a b c : ℝ) :
    1 - 2 * ((Quat.from_euler_zyx a b c).x * (Quat.from_euler_zyx a b c).x +
      (Quat.from_euler_zyx a b c).y * (Quat.from_euler_zyx a b c).y) =
      Real.cos b * Real.cos c := by
  simp only [Quat.from_euler_zyx, Quat.from_rotation_x, Quat.from_rotation_y,
    Quat.from_rotation_z, Quat.qmul]
  rw [cos_as_half b, cos_as_half c]
  linear_combination (-2 * (Real.cos (b / 2) ^ 2 * Real.sin (c / 2) ^ 2 +
      Real.sin (b / 2) ^ 2 * Real.cos (c / 2) ^ 2)) * Real.sin_sq_add_cos_sq (a / 2) +
    (-2 * Real.cos (b / 2) ^ 2) * Real.sin_sq_add_cos_sq (c / 2) +
    (-2 * Real.cos (c / 2) ^ 2) * Real.sin_sq_add_cos_sq (b / 2)

theorem yxz_sin_pitch (a b c : ℝ) :
    2 * ((Quat.from_euler_yxz a b c).w * (Quat.from_euler_yxz a b c).x -
      (Quat.from_euler_yxz a b c).y * (Quat.from_euler_yxz a b c).z) = Real.sin b := by
  simp only [Quat.from_euler_yxz, Quat.from_rotation_x, Quat.from_rotation_y,
    Quat.from_rotation_z, Quat.qmul]
  rw [sin_as_half b]
  linear_combination (2 * Real.sin (b / 2) * Real.cos (b / 2) *
      (Real.sin (c / 2) ^ 2 + Real.cos (c / 2) ^ 2)) * Real.sin_sq_add_cos_sq (a / 2) +
    (2 * Real.sin (b / 2) * Real.cos (b / 2)) * Real.sin_sq_add_cos_sq (c / 2)

theorem yxz_yaw_num (a b c : ℝ) :
    2 * ((Quat.from_euler_yxz a b c).x * (Quat.from_euler_yxz a b c).z +
      (Quat.from_euler_yxz a b c).w * (Quat.from_euler_yxz a b c).y) =
      Real.cos b * Real.sin a := by
  simp only [Quat.from_euler_yxz, Quat.from_rotation_x, Quat.from_rotation_y,
    Quat.from_rotation_z, Quat.qmul]
  rw [cos_as_half b, sin_as_half a]
  linear_combination (2 * Real.sin (a / 2) * Real.cos (a / 2) *
      (Real.cos (b / 2) ^ 2 - Real.sin (b / 2) ^ 2)) * Real.sin_sq_add_cos_sq (c / 2) -
    (2 * Real.sin (a / 2) * Real.cos (a / 2)) * Real.sin_sq_add_cos_sq (b / 2)

theorem yxz_yaw_den (a b c : ℝ) :
    1 - 2 * ((Quat.from_euler_yxz a b c).x * (Quat.from_euler_yxz a b c).x +
      (Quat.from_euler_yxz a b c).y * (Quat.from_euler_yxz a b c).y) =
      Real.cos b * Real.cos a := by
  simp only [Quat.from_euler_yxz, Quat.from_rotation_x, Quat.from_rotation_y,
    Quat.from_rotation_z, Quat.qmul]
  rw [cos_as_half b, cos_as_half a]
  linear_combination (-2 * (Real.cos (a / 2) ^ 2 * Real.sin (b / 2) ^ 2 +
      Real.sin (a / 2) ^ 2 * Real.cos (b / 2) ^ 2)) * Real.sin_sq_add_cos_sq (c / 2) +
    (-2 * Real.cos (a / 2) ^ 2) * Real.sin_sq_add_cos_sq (b / 2) +
    (-2 * Real.cos (b / 2) ^ 2) * Real.sin_sq_add_cos_sq (a / 2)

theorem yxz_roll_num (a b c : ℝ) :
    2 * ((Quat.from_euler_yxz a b c).x * (Quat.from_euler_yxz a b c).y +
      (Quat.from_euler_yxz a b c).w * (Quat.from_euler_yxz a b c).z) =
      Real.cos b * Real.sin c := by
  simp only [Quat.from_euler_yxz, Quat.from_rotation_x, Quat.from_rotation_y,
    Quat.from_rotation_z, Quat.qmul]
  rw [cos_as_half b, sin_as_half c]
  linear_combination (2 * Real.sin (c / 2) * Real.cos (c / 2) *
      (Real.cos (b / 2) ^ 2 - Real.sin (b / 2) ^ 2)) * Real.sin_sq_add_cos_sq (a / 2) -
    (2 * Real.sin (c / 2) * Real.cos (c / 2)) * Real.sin_sq_add_cos_sq (b / 2)

theorem yxz_roll_den (a b c : ℝ) :
    1 - 2 * ((Quat.from_euler_yxz a b c).x * (Quat.from_euler_yxz a b c).x +
      (Quat.from_euler_yxz a b c).z * (Quat.from_euler_yxz a b c).z) =
      Real.cos b * Real.cos c := by
  simp only [Quat.from_euler_yxz, Quat.from_rotation_x, Quat.from_rotation_y,
    Quat.from_rotation_z, Quat.qmul]
  rw [cos_as_half b, cos_as_half c]
  linear_combination (-2 * (Real.cos (b / 2) ^ 2 * Real.sin (c / 2) ^ 2 +
      Real.sin (b / 2) ^ 2 * Real.cos (c / 2) ^ 2)) * Real.sin_sq_add_cos_sq (a / 2) +
    (-2 * Real.cos (b / 2) ^ 2) * Real.sin_sq_add_cos_sq (c / 2) +
    (-2 * Real.cos (c / 2) ^ 2) * Real.sin_sq_add_cos_sq (b / 2)

theorem to_euler_zyx_roundtrip (a b c : ℝ)
    (hb1 : -(Real.pi / 2) < b) (hb2 : b < Real.pi / 2)
    (ha1 : -Real.pi < a) (ha2 : a ≤ Real.pi)
    (hc1 : -Real.pi < c) (hc2 : c ≤ Real.pi) :
    (Quat.from_euler_zyx a b c).to_euler_zyx = (a, b, c) := by
  have hcb : 0 < Real.cos b := Real.cos_pos_of_mem_Ioo ⟨hb1, hb2⟩
  simp only [Quat.to_euler_zyx, Prod.mk.injEq]
  refine ⟨?_, ?_, ?_⟩
  · rw [zyx_yaw_num, zyx_yaw_den]
    exact atan2_cos_mul _ _ hcb ha1 ha2
  · rw [zyx_sin_pitch]
    exact Real.arcsin_sin hb1.le hb2.le
  · rw [zyx_roll_num, zyx_roll_den]
    exact atan2_cos_mul _ _ hcb hc1 hc2

theorem to_euler_yxz_roundtrip (a b c : ℝ)
    (hb1 : -(Real.pi / 2) < b) (hb2 : b < Real.pi / 2)
    (ha1 : -Real.pi < a) (ha2 : a ≤ Real.pi)
    (hc1 : -Real.pi < c) (hc2 : c ≤ Real.pi) :
    (Quat.from_euler_yxz a b c).to_euler_yxz = (a, b, c) := by
  have hcb : 0 < Real.cos b := Real.cos_pos_of_mem_Ioo ⟨hb1, hb2⟩
  simp only [Quat.to_euler_yxz, Prod.mk.injEq]
  refine ⟨?_, ?_, ?_⟩
  · rw [yxz_yaw_num, yxz_yaw_den]
    exact atan2_cos_mul _ _ hcb ha1 ha2
  · rw [yxz_sin_pitch]
    exact Real.arcsin_sin hb1.le hb2.le
  · rw [yxz_roll_num, yxz_roll_den]
    exact atan2_cos_mul _ _ hcb hc1 hc2

theorem to_degrees_to_radians (d : ℝ) : to_degrees (to_radians d) = d := by
  unfold to_degrees to_radians
  field_simp

theorem to_radians_lt_pi (d : ℝ) (h : d ≤ 180) : to_radians d ≤ Real.pi := by
  unfold to_radians
  nlinarith [Real.pi_pos]

theorem neg_pi_lt_to_radians (d : ℝ) (h : -180 < d) : -Real.pi < to_radians d := by
  unfold to_radians
  nlinarith [Real.pi_pos]

theorem to_radians_lt_half_pi (d : ℝ) (h : d < 90) : to_radians d < Real.pi / 2 := by
  unfold to_radians
  nlinarith [Real.pi_pos]

theorem neg_half_pi_lt_to_radians (d : ℝ) (h : -90 < d) :
    -(Real.pi / 2) < to_radians d := by
  unfold to_radians
  nlinarith [Real.pi_pos]

theorem from_quaternion_types_roundtrip (r : Rotator)
    (hp1 : -90 < r.pitch) (hp2 : r.pitch < 90)
    (hy1 : -180 < r.yaw) (hy2 : r.yaw ≤ 180)
    (hr1 : -180 < r.roll) (hr2 : r.roll ≤ 180) :
    Rotator.from_quaternion_types r.to_quaternion_types = r := by
  have h := to_euler_zyx_roundtrip (to_radians r.yaw) (to_radians r.pitch) (to_radians r.roll)
    (neg_half_pi_lt_to_radians _ hp1) (to_radians_lt_half_pi _ hp2)
    (neg_pi_lt_to_radians _ hy1) (to_radians_lt_pi _ hy2)
    (neg_pi_lt_to_radians _ hr1) (to_radians_lt_pi _ hr2)
  simp only [Rotator.from_quaternion_types, Rotator.to_quaternion_types, h,
    to_degrees_to_radians]

theorem from_quaternion_top_roundtrip (r : Rotator)
    (hp1 : -90 < r.pitch) (hp2 : r.pitch < 90)
    (hy1 : -180 < r.yaw) (hy2 : r.yaw ≤ 180)
    (hr1 : -180 < r.roll) (hr2 : r.roll ≤ 180) :
    Rotator.from_quaternion_top r.to_quaternion_top = r := by
  have h := to_euler_yxz_roundtrip (to_radians r.yaw) (to_radians r.pitch) (to_radians r.roll)
    (neg_half_pi_lt_to_radians _ hp1) (to_radians_lt_half_pi _ hp2)
    (neg_pi_lt_to_radians _ hy1) (to_radians_lt_pi _ hy2)
    (neg_pi_lt_to_radians _ hr1) (to_radians_lt_pi _ hr2)
  simp only [Rotator.from_quaternion_top, Rotator.to_quaternion_top, h,
    to_degrees_to_radians]

/-- C3 amended: for rotators in the principal range (pitch strictly inside
(-90, 90), yaw and roll in (-180, 180]), the quaternion round trip of each
revision reproduces the rotator within 0.01 degrees per axis (exactly, in the
exact-arithmetic model). -/
theorem rotator_quaternion_roundtrip (r : Rotator)
    (hp1 : -90 < r.pitch) (hp2 : r.pitch < 90)
    (hy1 : -180 < r.yaw) (hy2 : r.yaw ≤ 180)
    (hr1 : -180 < r.roll) (hr2 : r.roll ≤ 180) :
    (|(Rotator.from_quaternion_types r.to_quaternion_types).pitch - r.pitch| ≤ 1 / 100 ∧
     |(Rotator.from_quaternion_types r.to_quaternion_types).yaw - r.yaw| ≤ 1 / 100 ∧
     |(Rotator.from_quaternion_types r.to_quaternion_types).roll - r.roll| ≤ 1 / 100) ∧
    (|(Rotator.from_quaternion_top r.to_quaternion_top).pitch - r.pitch| ≤ 1 / 100 ∧
     |(Rotator.from_quaternion_top r.to_quaternion_top).yaw - r.yaw| ≤ 1 / 100 ∧
     |(Rotator.from_quaternion_top r.to_quaternion_top).roll - r.roll| ≤ 1 / 100) := by
  rw [from_quaternion_types_roundtrip r hp1 hp2 hy1 hy2 hr1 hr2,
    from_quaternion_top_roundtrip r hp1 hp2 hy1 hy2 hr1 hr2]
  norm_num

/-- C3 witness at the concrete rotator (30, 45, 60). -/
theorem rotator_quaternion_roundtrip_witness :
    |(Rotator.from_quaternion_types (Rotator.to_quaternion_types ⟨30, 45, 60⟩)).pitch -
        (30 : ℝ)| ≤ 1 / 100 ∧
    |(Rotator.from_quaternion_top (Rotator.to_quaternion_top ⟨30, 45, 60⟩)).yaw -
        (45 : ℝ)| ≤ 1 / 100 := by
  have h := rotator_quaternion_roundtrip ⟨30, 45, 60⟩ (by norm_num) (by norm_num)
    (by norm_num) (by norm_num) (by norm_num) (by norm_num)
  exact ⟨h.1.1, h.2.2.1⟩

theorem to_quaternion_types_full_turn :
    Rotator.to_quaternion_types ⟨0, 360, 0⟩ = ⟨0, 0, 0, -1⟩ := by
  have hr : to_radians 360 = 2 * Real.pi := by unfold to_radians; ring
  have hr0 : to_radians 0 = 0 := by unfold to_radians; ring
  have h2 : 2 * Real.pi / 2 = Real.pi := by ring
  have h02 : (0 : ℝ) / 2 = 0 := by norm_num
  simp only [Rotator.to_quaternion_types, Quat.from_euler_zyx, hr, hr0, h2, h02,
    Quat.from_rotation_x, Quat.from_rotation_y, Quat.from_rotation_z, Quat.qmul,
    Real.sin_zero, Real.cos_zero, Real.sin_pi, Real.cos_pi, Quat.mk.injEq]
  norm_num

theorem atan2_zero_one : atan2 0 1 = 0 := by
  unfold atan2
  have h : (⟨1, 0⟩ : ℂ) = 1 := by
    apply Complex.ext <;> simp
  rw [h, Complex.arg_one]

/-- C3 counterexample: the rotator (pitch 0, yaw 360, roll 0) has pitch far
from the gimbal-lock values, yet the ZYX round trip returns yaw 0, off by 360
degrees. -/
theorem rotator_quaternion_roundtrip_counterexample :
    (Rotator.from_quaternion_types (Rotator.to_quaternion_types ⟨0, 360, 0⟩)).yaw = 0 ∧
    ¬ |(Rotator.from_quaternion_types (Rotator.to_quaternion_types ⟨0, 360, 0⟩)).yaw -
        (360 : ℝ)| ≤ 1 / 100 := by
  have hyaw : (Rotator.from_quaternion_types (Rotator.to_quaternion_types ⟨0, 360, 0⟩)).yaw
      = 0 := by
    rw [to_quaternion_types_full_turn]
    simp only [Rotator.from_quaternion_types, Quat.to_euler_zyx]
    norm_num [atan2_zero_one, to_degrees]
  refine ⟨hyaw, ?_⟩
  rw [hyaw]
  norm_num

open Classical in
/-- Rust `f32::signum` restricted to non-NaN input (`+0` has signum `1`). -/
noncomputable def signum (x : ℝ) : ℝ := if x < 0 then -1 else 1

/-- The common shape of the four branches of the Shepperd extraction:
each component carrier scaled by `0.5 / sqrt(four_sq)`. -/
noncomputable def shepperd_quat (s0 s1 s2 s3 F : ℝ) : Quat :=
  ⟨s0 * (1 / 2 / Real.sqrt F), s1 * (1 / 2 / Real.sqrt F),
   s2 * (1 / 2 / Real.sqrt F), s3 * (1 / 2 / Real.sqrt F)⟩

open Classical in
/-- The `glam` `Quat::from_rotation_axes` (used by `from_mat3` and
`to_scale_rotation_translation`): the branchy Shepperd / DirectXMath
quaternion-from-rotation-matrix algorithm, for column-convention axes. -/
noncomputable def Quat.from_rotation_axes (xa ya za : V3) : Quat :=
  if za.z ≤ 0 then
    if ya.y - xa.x ≤ 0 then
      shepperd_quat (1 - za.z - (ya.y - xa.x)) (xa.y + ya.x) (xa.z + za.x) (ya.z - za.y)
        (1 - za.z - (ya.y - xa.x))
    else
      shepperd_quat (xa.y + ya.x) (1 - za.z + (ya.y - xa.x)) (ya.z + za.y) (za.x - xa.z)
        (1 - za.z + (ya.y - xa.x))
  else
    if ya.y + xa.x ≤ 0 then
      shepperd_quat (xa.z + za.x) (ya.z + za.y) (1 + za.z - (ya.y + xa.x)) (xa.y - ya.x)
        (1 + za.z - (ya.y + xa.x))
    else
      shepperd_quat (ya.z - za.y) (za.x - xa.z) (xa.y - ya.x) (1 + za.z + (ya.y + xa.x))
        (1 + za.z + (ya.y + xa.x))

/-- The `glam` `Mat4::to_scale_rotation_translation`: scale from column lengths
(x negated on negative determinant), rotation via `from_rotation_axes` on the
normalized columns, translation from the fourth column. -/
noncomputable def AMat4.to_scale_rotation_translation (m : AMat4) : V3 × Quat × V3 :=
  (⟨m.x_axis.length * signum m.det, m.y_axis.length, m.z_axis.length⟩,
   Quat.from_rotation_axes
     (V3.smul (m.x_axis.length * signum m.det)⁻¹ m.x_axis)
     (V3.smul m.y_axis.length⁻¹ m.y_axis)
     (V3.smul m.z_axis.length⁻¹ m.z_axis),
   m.w_axis)

/-- The `Transform::from_matrix`. -/
noncomputable def Transform.from_matrix (m : AMat4) : Transform :=
  ⟨m.to_scale_rotation_translation.2.2, m.to_scale_rotation_translation.2.1,
   m.to_scale_rotation_translation.1⟩

/-- The `Transform::combine`: `self.to_matrix() * other.to_matrix()`, decomposed
back into a transform. -/
noncomputable def Transform.combine (t other : Transform) : Transform :=
  Transform.from_matrix (t.to_matrix.matmul other.to_matrix)

theorem V3.smul_one (v : V3) : V3.smul 1 v = v := by
  ext <;> simp [V3.smul]

theorem V3.vmul_one (p : V3) : V3.vmul ⟨1, 1, 1⟩ p = p := by
  ext <;> simp [V3.vmul]

theorem Quat.normSq_qmul (q1 q2 : Quat) :
    (q1.qmul q2).normSq = q1.normSq * q2.normSq := by
  simp only [Quat.qmul, Quat.normSq]
  ring

theorem Quat.normSq_qneg (q : Quat) : q.qneg.normSq = q.normSq := by
  simp only [Quat.qneg, Quat.normSq]
  ring

theorem Quat.mul_vec3_qneg (q : Quat) (v : V3) : q.qneg.mul_vec3 v = q.mul_vec3 v := by
  ext <;> simp only [Quat.qneg, Quat.mul_vec3, V3.smul, V3.vadd, V3.dot, V3.cross] <;> ring

theorem Quat.mul_vec3_comp (q1 q2 : Quat) (v : V3) :
    q1.mul_vec3 (q2.mul_vec3 v) = (q1.qmul q2).mul_vec3 v := by
  ext <;>
    simp only [Quat.qmul, Quat.mul_vec3, V3.smul, V3.vadd, V3.dot, V3.cross] <;> ring

theorem Quat.mul_vec3_vadd (q : Quat) (u v : V3) :
    q.mul_vec3 (u.vadd v) = (q.mul_vec3 u).vadd (q.mul_vec3 v) := by
  ext <;> simp only [Quat.mul_vec3, V3.smul, V3.vadd, V3.dot, V3.cross] <;> ring

theorem Quat.rot_col_x_eq_mulvec (q : Quat) (h : q.normSq = 1) :
    q.rot_col_x = q.mul_vec3 ⟨1, 0, 0⟩ := by
  simp only [Quat.normSq] at h
  ext <;> simp only [Quat.rot_col_x, Quat.mul_vec3, V3.smul, V3.vadd, V3.dot, V3.cross]
  · linear_combination -h
  · ring
  · ring

theorem Quat.rot_col_y_eq_mulvec (q : Quat) (h : q.normSq = 1) :
    q.rot_col_y = q.mul_vec3 ⟨0, 1, 0⟩ := by
  simp only [Quat.normSq] at h
  ext <;> simp only [Quat.rot_col_y, Quat.mul_vec3, V3.smul, V3.vadd, V3.dot, V3.cross]
  · ring
  · linear_combination -h
  · ring

theorem Quat.rot_col_z_eq_mulvec (q : Quat) (h : q.normSq = 1) :
    q.rot_col_z = q.mul_vec3 ⟨0, 0, 1⟩ := by
  simp only [Quat.normSq] at h
  ext <;> simp only [Quat.rot_col_z, Quat.mul_vec3, V3.smul, V3.vadd, V3.dot, V3.cross]
  · ring
  · ring
  · linear_combination -h

theorem AMat4.lin_apply_unit (q : Quat) (loc : V3) (h : q.normSq = 1) (v : V3) :
    (AMat4.from_scale_rotation_translation ⟨1, 1, 1⟩ q loc).lin_apply v = q.mul_vec3 v := by
  simp only [Quat.normSq] at h
  ext <;>
    simp only [AMat4.from_scale_rotation_translation, AMat4.lin_apply, Quat.rot_col_x,
      Quat.rot_col_y, Quat.rot_col_z, Quat.mul_vec3, V3.smul, V3.vadd, V3.dot, V3.cross]
  · linear_combination (-v.x) * h
  · linear_combination (-v.y) * h
  · linear_combination (-v.z) * h

theorem shepperd_quat_eval (s0 s1 s2 s3 F t : ℝ) (Q : Quat) (ht : 0 < t)
    (hF : F = (2 * t) ^ 2) (h0 : s0 = 4 * t * Q.x) (h1 : s1 = 4 * t * Q.y)
    (h2 : s2 = 4 * t * Q.z) (h3 : s3 = 4 * t * Q.w) :
    shepperd_quat s0 s1 s2 s3 F = Q := by
  have hs : Real.sqrt F = 2 * t := by
    rw [hF, Real.sqrt_sq (by linarith : (0 : ℝ) ≤ 2 * t)]
  unfold shepperd_quat
  rw [hs, h0, h1, h2, h3]
  have htne : t ≠ 0 := ht.ne'
  ext <;> simp only [] <;> field_simp <;> ring

theorem from_rotation_axes_of_unit (q : Quat) (h : q.normSq = 1) :
    Quat.from_rotation_axes q.rot_col_x q.rot_col_y q.rot_col_z = q ∨
    Quat.from_rotation_axes q.rot_col_x q.rot_col_y q.rot_col_z = q.qneg := by
  have hn : q.x * q.x + q.y * q.y + q.z * q.z + q.w * q.w = 1 := h
  simp only [Quat.from_rotation_axes, Quat.rot_col_x, Quat.rot_col_y, Quat.rot_col_z]
  by_cases hc1 : 1 - 2 * (q.x * q.x + q.y * q.y) ≤ 0
  · rw [if_pos hc1]
    by_cases hc2 : 1 - 2 * (q.x * q.x + q.z * q.z) - (1 - 2 * (q.y * q.y + q.z * q.z)) ≤ 0
    · rw [if_pos hc2]
      have hx2 : 1 / 4 ≤ q.x * q.x := by nlinarith
      have hx0 : q.x ≠ 0 := by
        intro h0
        rw [h0] at hx2
        norm_num at hx2
      rcases hx0.lt_or_lt with hx | hx
      · right
        refine shepperd_quat_eval _ _ _ _ _ (-q.x) _ (by linarith) (by ring) ?_ ?_ ?_ ?_ <;>
          simp only [Quat.qneg] <;> ring
      · left
        exact shepperd_quat_eval _ _ _ _ _ q.x _ hx (by ring) (by ring) (by ring) (by ring)
          (by ring)
    · rw [if_neg hc2]
      have hy2 : 1 / 4 ≤ q.y * q.y := by nlinarith
      have hy0 : q.y ≠ 0 := by
        intro h0
        rw [h0] at hy2
        norm_num at hy2
      rcases hy0.lt_or_lt with hy | hy
      · right
        refine shepperd_quat_eval _ _ _ _ _ (-q.y) _ (by linarith) (by ring) ?_ ?_ ?_ ?_ <;>
          simp only [Quat.qneg] <;> ring
      · left
        exact shepperd_quat_eval _ _ _ _ _ q.y _ hy (by ring) (by ring) (by ring) (by ring)
          (by ring)
  · rw [if_neg hc1]
    by_cases hc3 : 1 - 2 * (q.x * q.x + q.z * q.z) + (1 - 2 * (q.y * q.y + q.z * q.z)) ≤ 0
    · rw [if_pos hc3]
      have hz2 : 1 / 4 ≤ q.z * q.z := by nlinarith
      have hz0 : q.z ≠ 0 := by
        intro h0
        rw [h0] at hz2
        norm_num at hz2
      rcases hz0.lt_or_lt with hz | hz
      · right
        refine shepperd_quat_eval _ _ _ _ _ (-q.z) _ (by linarith) (by ring) ?_ ?_ ?_ ?_ <;>
          simp only [Quat.qneg] <;> ring
      · left
        exact shepperd_quat_eval _ _ _ _ _ q.z _ hz (by ring) (by ring) (by ring) (by ring)
          (by ring)
    · rw [if_neg hc3]
      have hw2 : 1 / 4 ≤ q.w * q.w := by nlinarith
      have hw0 : q.w ≠ 0 := by
        intro h0
        rw [h0] at hw2
        norm_num at hw2
      rcases hw0.lt_or_lt with hw | hw
      · right
        refine shepperd_quat_eval _ _ _ _ _ (-q.w) _ (by linarith) ?_ ?_ ?_ ?_ ?_
        · linear_combination (-4) * hn
        · simp only [Quat.qneg]; ring
        · simp only [Quat.qneg]; ring
        · simp only [Quat.qneg]; ring
        · simp only [Quat.qneg]; linear_combination (-4) * hn
      · left
        refine shepperd_quat_eval _ _ _ _ _ q.w _ hw ?_ (by ring) (by ring) (by ring) ?_
        · linear_combination (-4) * hn
        · linear_combination (-4) * hn

theorem Quat.rot_col_x_lsq (q : Quat) (h : q.normSq = 1) :
    q.rot_col_x.length_squared = 1 := by
  have hn : q.x * q.x + q.y * q.y + q.z * q.z + q.w * q.w = 1 := h
  simp only [Quat.rot_col_x, V3.length_squared]
  linear_combination (4 * (q.y * q.y + q.z * q.z)) * hn

theorem Quat.rot_col_y_lsq (q : Quat) (h : q.normSq = 1) :
    q.rot_col_y.length_squared = 1 := by
  have hn : q.x * q.x + q.y * q.y + q.z * q.z + q.w * q.w = 1 := h
  simp only [Quat.rot_col_y, V3.length_squared]
  linear_combination (4 * (q.x * q.x + q.z * q.z)) * hn

theorem Quat.rot_col_z_lsq (q : Quat) (h : q.normSq = 1) :
    q.rot_col_z.length_squared = 1 := by
  have hn : q.x * q.x + q.y * q.y + q.z * q.z + q.w * q.w = 1 := h
  simp only [Quat.rot_col_z, V3.length_squared]
  linear_combination (4 * (q.x * q.x + q.y * q.y)) * hn

theorem Quat.rot_col_x_length (q : Quat) (h : q.normSq = 1) : q.rot_col_x.length = 1 := by
  rw [V3.length, Quat.rot_col_x_lsq q h, Real.sqrt_one]

theorem Quat.rot_col_y_length (q : Quat) (h : q.normSq = 1) : q.rot_col_y.length = 1 := by
  rw [V3.length, Quat.rot_col_y_lsq q h, Real.sqrt_one]

theorem Quat.rot_col_z_length (q : Quat) (h : q.normSq = 1) : q.rot_col_z.length = 1 := by
  rw [V3.length, Quat.rot_col_z_lsq q h, Real.sqrt_one]

theorem det_rot_cols (q : Quat) (t : V3) (h : q.normSq = 1) :
    (⟨q.rot_col_x, q.rot_col_y, q.rot_col_z, t⟩ : AMat4).det = 1 := by
  have hn : q.x * q.x + q.y * q.y + q.z * q.z + q.w * q.w = 1 := h
  simp only [AMat4.det, Quat.rot_col_x, Quat.rot_col_y, Quat.rot_col_z, V3.dot, V3.cross]
  linear_combination (4 * (q.x * q.x + q.y * q.y + q.z * q.z)) * hn

theorem signum_one : signum 1 = 1 := by
  unfold signum
  rw [if_neg (by norm_num)]

theorem decompose_unit (q : Quat) (t : V3) (h : q.normSq = 1) :
    (AMat4.from_scale_rotation_translation ⟨1, 1, 1⟩ q t).to_scale_rotation_translation =
      (⟨1, 1, 1⟩, Quat.from_rotation_axes q.rot_col_x q.rot_col_y q.rot_col_z, t) := by
  have hM : AMat4.from_scale_rotation_translation ⟨1, 1, 1⟩ q t =
      ⟨q.rot_col_x, q.rot_col_y, q.rot_col_z, t⟩ := by
    simp only [AMat4.from_scale_rotation_translation, V3.smul_one]
  rw [hM]
  simp only [AMat4.to_scale_rotation_translation]
  rw [det_rot_cols q t h, signum_one, Quat.rot_col_x_length q h, Quat.rot_col_y_length q h,
    Quat.rot_col_z_length q h]
  norm_num [V3.smul_one]

theorem lin_apply_cols (q : Quat) (loc : V3) (h : q.normSq = 1) (v : V3) :
    (⟨q.rot_col_x, q.rot_col_y, q.rot_col_z, loc⟩ : AMat4).lin_apply v = q.mul_vec3 v := by
  simp only [Quat.normSq] at h
  ext <;>
    simp only [AMat4.lin_apply, Quat.rot_col_x, Quat.rot_col_y, Quat.rot_col_z,
      Quat.mul_vec3, V3.smul, V3.vadd, V3.dot, V3.cross]
  · linear_combination (-v.x) * h
  · linear_combination (-v.y) * h
  · linear_combination (-v.z) * h

/-- C10: for transforms with unit scale (and rotations satisfying the
data-model unit-quaternion invariant), `a.combine(b)` applied to a point
equals applying `b` first and then `a`: `combine` multiplies self's matrix on
the left, so `other` acts on the point first — opposite to the method's doc
comment. -/
theorem combine_applies_other_first (a b : Transform) (p : V3)
    (hsa : a.scale = ⟨1, 1, 1⟩) (hsb : b.scale = ⟨1, 1, 1⟩)
    (hqa : a.rotation.normSq = 1) (hqb : b.rotation.normSq = 1) :
    (a.combine b).transform_point p = a.transform_point (b.transform_point p) := by
  have hqab : (a.rotation.qmul b.rotation).normSq = 1 := by
    rw [Quat.normSq_qmul, hqa, hqb]
    norm_num
  have hMa : a.to_matrix = ⟨a.rotation.rot_col_x, a.rotation.rot_col_y,
      a.rotation.rot_col_z, a.location⟩ := by
    rw [Transform.to_matrix, hsa]
    simp only [AMat4.from_scale_rotation_translation, V3.smul_one]
  have hMb : b.to_matrix = ⟨b.rotation.rot_col_x, b.rotation.rot_col_y,
      b.rotation.rot_col_z, b.location⟩ := by
    rw [Transform.to_matrix, hsb]
    simp only [AMat4.from_scale_rotation_translation, V3.smul_one]
  have hcol : ∀ v : V3, a.rotation.mul_vec3 (b.rotation.mul_vec3 v) =
      (a.rotation.qmul b.rotation).mul_vec3 v := fun v => Quat.mul_vec3_comp _ _ v
  have hmat : a.to_matrix.matmul b.to_matrix =
      AMat4.from_scale_rotation_translation ⟨1, 1, 1⟩ (a.rotation.qmul b.rotation)
        ((a.rotation.mul_vec3 b.location).vadd a.location) := by
    rw [hMa, hMb]
    simp only [AMat4.matmul, AMat4.from_scale_rotation_translation, V3.smul_one]
    congr 1
    · rw [lin_apply_cols _ _ hqa, Quat.rot_col_x_eq_mulvec _ hqb, hcol,
        ← Quat.rot_col_x_eq_mulvec _ hqab]
    · rw [lin_apply_cols _ _ hqa, Quat.rot_col_y_eq_mulvec _ hqb, hcol,
        ← Quat.rot_col_y_eq_mulvec _ hqab]
    · rw [lin_apply_cols _ _ hqa, Quat.rot_col_z_eq_mulvec _ hqb, hcol,
        ← Quat.rot_col_z_eq_mulvec _ hqab]
    · rw [lin_apply_cols _ _ hqa]
  have hcomb : a.combine b = ⟨(a.rotation.mul_vec3 b.location).vadd a.location,
      Quat.from_rotation_axes (a.rotation.qmul b.rotation).rot_col_x
        (a.rotation.qmul b.rotation).rot_col_y (a.rotation.qmul b.rotation).rot_col_z,
      ⟨1, 1, 1⟩⟩ := by
    rw [Transform.combine, hmat, Transform.from_matrix, decompose_unit _ _ hqab]
  rw [hcomb]
  rcases from_rotation_axes_of_unit (a.rotation.qmul b.rotation) hqab with hq' | hq' <;>
    rw [hq']
  · rw [transform_point_eq_srt _ p hqab,
      transform_point_eq_srt b p hqb, transform_point_eq_srt a _ hqa, hsa, hsb]
    simp only [V3.vmul_one]
    rw [Quat.mul_vec3_vadd, hcol]
    ext <;> simp only [V3.vadd] <;> ring
  · rw [transform_point_eq_srt _ p (by rw [Quat.normSq_qneg]; exact hqab),
      transform_point_eq_srt b p hqb, transform_point_eq_srt a _ hqa, hsa, hsb]
    simp only [V3.vmul_one, Quat.mul_vec3_qneg]
    rw [Quat.mul_vec3_vadd, hcol]
    ext <;> simp only [V3.vadd] <;> ring

/-- C10 witness at concrete unit-scale transforms: a translation combined
with a rotation by the unit quaternion (1/2, 1/2, 1/2, 1/2). -/
theorem combine_applies_other_first_witness :
    (Transform.scale ⟨⟨1, 2, 3⟩, ⟨0, 0, 0, 1⟩, ⟨1, 1, 1⟩⟩ = ⟨1, 1, 1⟩) ∧
    (Quat.normSq ⟨1/2, 1/2, 1/2, 1/2⟩ = 1) ∧
    (Transform.combine ⟨⟨1, 2, 3⟩, ⟨0, 0, 0, 1⟩, ⟨1, 1, 1⟩⟩
        ⟨⟨4, 5, 6⟩, ⟨1/2, 1/2, 1/2, 1/2⟩, ⟨1, 1, 1⟩⟩).transform_point ⟨7, 8, 9⟩ =
      Transform.transform_point ⟨⟨1, 2, 3⟩, ⟨0, 0, 0, 1⟩, ⟨1, 1, 1⟩⟩
        (Transform.transform_point ⟨⟨4, 5, 6⟩, ⟨1/2, 1/2, 1/2, 1/2⟩, ⟨1, 1, 1⟩⟩ ⟨7, 8, 9⟩) := by
  refine ⟨rfl, by norm_num [Quat.normSq], ?_⟩
  exact combine_applies_other_first _ _ _ rfl rfl (by norm_num [Quat.normSq])
    (by norm_num [Quat.normSq])
